import Mathlib

/-!
Verification of the slinky builder (steven-johnson/srj-slinky).

This file shallowly embeds the parts of the source the claims are about:
the expression IR (src/src/expr.h, the builder-era expression nodes used by
infer_bounds.cc), the interval algebra (src/src/interval.h), the statement IR
and the passes of src/src/optimizations.cc and the infer_bounds translation
unit, and proves or refutes the frozen claims about them.

Helpers that live in translation units absent from src/ (substitute.cc,
simplify.cc, depends_on.cc) are modelled from the spec; each such definition
carries a doc comment starting with `Modelled from the spec:`.
-/

namespace slinky

/-- The buffer metadata accessors of the builder-era expression IR
(`load_buffer_meta` in part_003 / `buffer_min` etc. in infer_bounds.cc). -/
inductive buffer_meta where
  | bmin | bmax | bextent | bstride | bfold
deriving DecidableEq, Repr

/-- The expression IR, translated from src/src/expr.h together with the
builder-era nodes used by infer_bounds.cc (`select`, `positive_infinity`,
`load_buffer_meta`). `undef` models the null `expr` handle (`expr()`), which
`defined()` tests for. Only the variants the claims exercise are embedded. -/
inductive expr where
  | undef : expr
  | var (name : Nat) : expr
  | const (value : Int) : expr
  | add (a b : expr) : expr
  | sub (a b : expr) : expr
  | mul (a b : expr) : expr
  | div (a b : expr) : expr
  | emin (a b : expr) : expr
  | emax (a b : expr) : expr
  | eq (a b : expr) : expr
  | le (a b : expr) : expr
  | lt (a b : expr) : expr
  | land (a b : expr) : expr
  | select (c t f : expr) : expr
  | posInf : expr
  | negInf : expr
  | lbm (buf : expr) (meta : buffer_meta) (dim : expr) : expr
deriving DecidableEq, Repr

/-- `expr::defined()` from src/src/expr.h: the handle is non-null. -/
def expr.defined : expr → Bool
  | .undef => false
  | _ => true

/-- Evaluation of an expression under an assignment of symbols to `index_t`
values. Follows the spec's integer semantics (§3.2): floored division,
comparisons and logicals produce 0/1, `select` on a nonzero condition.
Infinities, buffer metadata and the null handle have no integer value. -/
def eval : expr → (Nat → Int) → Option Int
  | .undef, _ => none
  | .var s, ρ => some (ρ s)
  | .const v, _ => some v
  | .add a b, ρ => do return (← eval a ρ) + (← eval b ρ)
  | .sub a b, ρ => do return (← eval a ρ) - (← eval b ρ)
  | .mul a b, ρ => do return (← eval a ρ) * (← eval b ρ)
  | .div a b, ρ => do
      let x ← eval a ρ
      let y ← eval b ρ
      if y = 0 then none else return Int.fdiv x y
  | .emin a b, ρ => do return Min.min (← eval a ρ) (← eval b ρ)
  | .emax a b, ρ => do return Max.max (← eval a ρ) (← eval b ρ)
  | .eq a b, ρ => do return (if (← eval a ρ) = (← eval b ρ) then 1 else 0)
  | .le a b, ρ => do return (if (← eval a ρ) ≤ (← eval b ρ) then 1 else 0)
  | .lt a b, ρ => do return (if (← eval a ρ) < (← eval b ρ) then 1 else 0)
  | .land a b, ρ => do return (if (← eval a ρ) ≠ 0 ∧ (← eval b ρ) ≠ 0 then 1 else 0)
  | .select c t f, ρ => do
      let cv ← eval c ρ
      if cv ≠ 0 then eval t ρ else eval f ρ
  | .posInf, _ => none
  | .negInf, _ => none
  | .lbm _ _ _, _ => none

/-- Modelled from the spec: `substitute(node, sym, replacement)` of §4.2
(substitute.cc is not under src/). Replaces every occurrence of the variable
`sym` by `replacement`; the embedded expressions have no binders. -/
def substitute (e : expr) (sym : Nat) (repl : expr) : expr :=
  match e with
  | .undef => .undef
  | .var s => if s = sym then repl else .var s
  | .const v => .const v
  | .add a b => .add (substitute a sym repl) (substitute b sym repl)
  | .sub a b => .sub (substitute a sym repl) (substitute b sym repl)
  | .mul a b => .mul (substitute a sym repl) (substitute b sym repl)
  | .div a b => .div (substitute a sym repl) (substitute b sym repl)
  | .emin a b => .emin (substitute a sym repl) (substitute b sym repl)
  | .emax a b => .emax (substitute a sym repl) (substitute b sym repl)
  | .eq a b => .eq (substitute a sym repl) (substitute b sym repl)
  | .le a b => .le (substitute a sym repl) (substitute b sym repl)
  | .lt a b => .lt (substitute a sym repl) (substitute b sym repl)
  | .land a b => .land (substitute a sym repl) (substitute b sym repl)
  | .select c t f =>
      .select (substitute c sym repl) (substitute t sym repl) (substitute f sym repl)
  | .posInf => .posInf
  | .negInf => .negInf
  | .lbm b m d => .lbm (substitute b sym repl) m (substitute d sym repl)

/-- Modelled from the spec: `substitute(node, target, replacement)` of §4.2
where the target is a whole expression (used by `ignore_loop_max` and
`recursive_substitute` in infer_bounds.cc; substitute.cc is not under src/).
Replaces every structural occurrence of `target` by `repl`. -/
def substitute_expr (e target repl : expr) : expr :=
  if e = target then repl else
  match e with
  | .add a b => .add (substitute_expr a target repl) (substitute_expr b target repl)
  | .sub a b => .sub (substitute_expr a target repl) (substitute_expr b target repl)
  | .mul a b => .mul (substitute_expr a target repl) (substitute_expr b target repl)
  | .div a b => .div (substitute_expr a target repl) (substitute_expr b target repl)
  | .emin a b => .emin (substitute_expr a target repl) (substitute_expr b target repl)
  | .emax a b => .emax (substitute_expr a target repl) (substitute_expr b target repl)
  | .eq a b => .eq (substitute_expr a target repl) (substitute_expr b target repl)
  | .le a b => .le (substitute_expr a target repl) (substitute_expr b target repl)
  | .lt a b => .lt (substitute_expr a target repl) (substitute_expr b target repl)
  | .land a b => .land (substitute_expr a target repl) (substitute_expr b target repl)
  | .select c t f => .select (substitute_expr c target repl) (substitute_expr t target repl)
      (substitute_expr f target repl)
  | .lbm b m d => .lbm (substitute_expr b target repl) m (substitute_expr d target repl)
  | other => other

/-- Modelled from the spec: `depends_on(expr, sym)` (runtime/depends_on is not
under src/): whether the variable `sym` occurs in the expression. -/
def depends_on : expr → Nat → Bool
  | .undef, _ => false
  | .var s, sym => s = sym
  | .const _, _ => false
  | .add a b, sym | .sub a b, sym | .mul a b, sym | .div a b, sym
  | .emin a b, sym | .emax a b, sym | .eq a b, sym | .le a b, sym
  | .lt a b, sym | .land a b, sym => depends_on a sym || depends_on b sym
  | .select c t f, sym => depends_on c sym || depends_on t sym || depends_on f sym
  | .posInf, _ => false
  | .negInf, _ => false
  | .lbm b _ d, sym => depends_on b sym || depends_on d sym

/-- The `interval` / `interval_expr` structure of src/src/interval.h. -/
structure interval where
  min : expr
  max : expr
deriving DecidableEq, Repr

/-- `interval::extent()` from src/src/interval.h: `max - min + 1`. -/
def interval.extent (i : interval) : expr := .add (.sub i.max i.min) (.const 1)

/-- `interval::operator|=` (the union operator) from src/src/interval.h
lines 49-53: `min = slinky::min(min, r.min); max = slinky::max(max, r.max)`.
`slinky::min`/`max` construct `min`/`max` nodes (part_003). -/
def interval.op_or (a r : interval) : interval :=
  { min := .emin a.min r.min, max := .emax a.max r.max }

/-- `interval::operator&=` from src/src/interval.h lines 55-60, commented
"This is intersection, just to be consistent with union": as written it sets
`min = slinky::min(min, r.min); max = slinky::max(max, r.max)`. -/
def interval.op_and (a r : interval) : interval :=
  { min := .emin a.min r.min, max := .emax a.max r.max }

/-- The empty test of an interval, used by slide-and-fold on the overlap
(`overlap.empty()`). Modelled from the spec: `overlap.min > overlap.max`,
with `a > b` desugared to `less(b, a)` as in part_003. -/
def interval.empty_test (i : interval) : expr := .lt i.max i.min

/-- `box_expr`: an n-dimensional region (src/src/interval.h line 99). -/
abbrev box := List interval

/-- The undefined interval: both handles null, the state `vector_at` creates
when it grows a box (optimizations.cc lines 42-56). -/
def interval.undefined : interval := { min := .undef, max := .undef }

/-- Constant folding of an expression with no free variables, mirroring
`eval` (a helper for the modelled simplifier). -/
def cfold : expr → Option Int
  | .const v => some v
  | .add a b => do return (← cfold a) + (← cfold b)
  | .sub a b => do return (← cfold a) - (← cfold b)
  | .mul a b => do return (← cfold a) * (← cfold b)
  | .div a b => do
      let x ← cfold a
      let y ← cfold b
      if y = 0 then none else return Int.fdiv x y
  | .emin a b => do return Min.min (← cfold a) (← cfold b)
  | .emax a b => do return Max.max (← cfold a) (← cfold b)
  | .eq a b => do return (if (← cfold a) = (← cfold b) then 1 else 0)
  | .le a b => do return (if (← cfold a) ≤ (← cfold b) then 1 else 0)
  | .lt a b => do return (if (← cfold a) < (← cfold b) then 1 else 0)
  | .land a b => do return (if (← cfold a) ≠ 0 ∧ (← cfold b) ≠ 0 then 1 else 0)
  | .select c t f => do
      let cv ← cfold c
      if cv ≠ 0 then cfold t else cfold f
  | _ => none

/-- Insert a coefficient into a normalized (sorted, zero-free) list of
variable coefficients. Helper for the affine normal form. -/
def coeff_insert (v : Nat) (a : Int) : List (Nat × Int) → List (Nat × Int)
  | [] => if a = 0 then [] else [(v, a)]
  | (w, b) :: rest =>
      if v < w then (if a = 0 then (w, b) :: rest else (v, a) :: (w, b) :: rest)
      else if v = w then (if a + b = 0 then rest else (v, a + b) :: rest)
      else (w, b) :: coeff_insert v a rest

/-- Add two normalized coefficient lists. -/
def coeff_add (l : List (Nat × Int)) (r : List (Nat × Int)) : List (Nat × Int) :=
  l.foldr (fun p acc => coeff_insert p.1 p.2 acc) r

/-- Scale a normalized coefficient list. -/
def coeff_scale (k : Int) (l : List (Nat × Int)) : List (Nat × Int) :=
  if k = 0 then [] else l.map (fun p => (p.1, k * p.2))

/-- Modelled from the spec: the affine normal form `k0 + Σ ki·vi` that the
simplifier keeps for expressions linear in variables (§4.1 rule 4;
simplify.cc is not under src/). Returns the constant and the sorted,
zero-free coefficient list, or `none` when the expression is not affine. -/
def lin : expr → Option (Int × List (Nat × Int))
  | .var s => some (0, [(s, 1)])
  | .const v => some (v, [])
  | .add a b => do
      let (ca, la) ← lin a
      let (cb, lb) ← lin b
      return (ca + cb, coeff_add la lb)
  | .sub a b => do
      let (ca, la) ← lin a
      let (cb, lb) ← lin b
      return (ca - cb, coeff_add la (coeff_scale (-1) lb))
  | .mul a b => do
      let (ca, la) ← lin a
      let (cb, lb) ← lin b
      match la, lb with
      | [], _ => return (ca * cb, coeff_scale ca lb)
      | _, [] => return (cb * ca, coeff_scale cb la)
      | _, _ => none
  | _ => none

/-- Rebuild an affine normal form as an expression:
`const k0 + a1 * v1 + a2 * v2 + ...` (deterministic order). -/
def lin_rebuild (c : Int) (l : List (Nat × Int)) : expr :=
  l.foldl (fun acc p => .add acc (.mul (.const p.2) (.var p.1))) (.const c)

/-- The value of an affine normal form under an assignment. -/
def lin_val (c : Int) (l : List (Nat × Int)) (ρ : Nat → Int) : Int :=
  c + (l.map fun p => p.2 * ρ p.1).sum

/-- Modelled from the spec: the `prove_true` entry point for `a ≤ b`
comparisons (§4.1 rule 5; simplify.cc is not under src/): discharge the
comparison when `b - a` normalizes to a nonnegative constant affine form. -/
def prove_le (a b : expr) : Bool :=
  match lin (.sub b a) with
  | some (c, []) => 0 ≤ c
  | _ => false

/-- Modelled from the spec: `prove_true` (§4.1; simplify.cc is not under
src/): constants prove themselves, conjunctions prove conjunct-wise, and
comparisons are discharged through the affine normal form. -/
def prove_true : expr → Bool
  | .land a b => prove_true a && prove_true b
  | .le a b => prove_le a b
  | .lt a b => prove_le (.add a (.const 1)) b
  | e => match cfold e with
         | some v => v ≠ 0
         | none => false

/-- Modelled from the spec: `simplify(Expr)` (§4.1; simplify.cc is not under
src/), restricted to the rewrites the embedded passes rely on: full constant
folding, else affine canonicalization, else the expression unchanged. -/
def simplify (e : expr) : expr :=
  match cfold e with
  | some v => .const v
  | none =>
      match lin e with
      | some (c, l) => lin_rebuild c l
      | none => e

/-- Modelled from the spec: `simplify(const class min*, a, b)` used by the
bounds inferrer when leaving a loop (§4.3 step 3; simplify.cc is not under
src/): fold constants, use `prove_true` to evaluate the `min` when one
operand is provably ≤ the other, else keep a `min` node. -/
def simplify_min (a b : expr) : expr :=
  match cfold a, cfold b with
  | some x, some y => .const (Min.min x y)
  | _, _ =>
      if a = b then a
      else if prove_le a b then a
      else if prove_le b a then b
      else .emin a b

/-- Modelled from the spec: `simplify(const class max*, a, b)`, symmetric to
`simplify_min`. -/
def simplify_max (a b : expr) : expr :=
  match cfold a, cfold b with
  | some x, some y => .const (Max.max x y)
  | _, _ =>
      if a = b then a
      else if prove_le a b then b
      else if prove_le b a then a
      else .emax a b

/-- `loop_mode` of the statement IR (§3.3). -/
inductive loop_mode where
  | serial | parallel
deriving DecidableEq, Repr

/-- `dim_expr`: a single buffer dimension descriptor (§3.2). An undefined
`fold_factor` (no folding) is the null handle `expr.undef`. -/
structure dim_expr where
  bounds : interval
  stride : expr
  fold_factor : expr
deriving DecidableEq, Repr

/-- The statement IR (§3.3), restricted to the variants the embedded passes
visit. `undef` models the null `stmt` handle. -/
inductive stmt where
  | undef : stmt
  | call_stmt (inputs outputs : List Nat) : stmt
  | copy_stmt (src : Nat) (src_x : List expr) (dst : Nat) : stmt
  | let_stmt (sym : Nat) (value : expr) (body : stmt) : stmt
  | loop (sym : Nat) (mode : loop_mode) (bounds : interval) (step : expr) (body : stmt) : stmt
  | block (a b : stmt) : stmt
  | allocate (sym : Nat) (elem_size : Int) (dims : List dim_expr) (body : stmt) : stmt
  | make_buffer (sym : Nat) (base : expr) (elem_size : expr) (dims : List dim_expr)
      (body : stmt) : stmt
  | crop_buffer (sym : Nat) (bounds : box) (body : stmt) : stmt
  | crop_dim (sym : Nat) (dim : Nat) (bounds : interval) (body : stmt) : stmt
  | slice_buffer (sym : Nat) (at_ : List expr) (body : stmt) : stmt
  | slice_dim (sym : Nat) (dim : Nat) (at_ : expr) (body : stmt) : stmt
  | truncate_rank (sym : Nat) (rank : Nat) (body : stmt) : stmt
  | check (condition : expr) : stmt
deriving DecidableEq, Repr

/-- Whether a dimension descriptor mentions the variable `sym`. -/
def dim_depends_on (d : dim_expr) (sym : Nat) : Bool :=
  depends_on d.bounds.min sym || depends_on d.bounds.max sym ||
  depends_on d.stride sym || depends_on d.fold_factor sym

/-- Whether a box mentions the variable `sym`. -/
def box_depends_on (b : box) (sym : Nat) : Bool :=
  b.any fun i => depends_on i.min sym || depends_on i.max sym

/-- Modelled from the spec: `depends_on(stmt, sym)` (runtime/depends_on is
not under src/): whether the statement references symbol `sym`, either as a
variable in an expression or as a buffer name in a call, copy, crop, slice
or truncate node. -/
def stmt_depends_on : stmt → Nat → Bool
  | .undef, _ => false
  | .call_stmt ins outs, s => ins.contains s || outs.contains s
  | .copy_stmt src xs dst, s => src == s || dst == s || xs.any (depends_on · s)
  | .let_stmt _ v b, s => depends_on v s || stmt_depends_on b s
  | .loop _ _ bd st b, s =>
      depends_on bd.min s || depends_on bd.max s || depends_on st s || stmt_depends_on b s
  | .block a b, s => stmt_depends_on a s || stmt_depends_on b s
  | .allocate _ _ dims b, s => dims.any (dim_depends_on · s) || stmt_depends_on b s
  | .make_buffer _ base es dims b, s =>
      depends_on base s || depends_on es s || dims.any (dim_depends_on · s) ||
      stmt_depends_on b s
  | .crop_buffer sy bds b, s => sy == s || box_depends_on bds s || stmt_depends_on b s
  | .crop_dim sy _ bd b, s =>
      sy == s || depends_on bd.min s || depends_on bd.max s || stmt_depends_on b s
  | .slice_buffer sy xs b, s => sy == s || xs.any (depends_on · s) || stmt_depends_on b s
  | .slice_dim sy _ x b, s => sy == s || depends_on x s || stmt_depends_on b s
  | .truncate_rank sy _ b, s => sy == s || stmt_depends_on b s
  | .check c, s => depends_on c s

/-- The leaf statements of a block spine, in source order: the traversal
order of `for_each_stmt_forward` (optimizations.cc lines 192-200). -/
def leaves : stmt → List stmt
  | .block a b => leaves a ++ leaves b
  | .undef => []
  | s => [s]

/-- Rebuild a statement from a list of leaves by left-folded `block::make`,
the shape `stmt` gets when built from a list (part_003 lines 86-96). -/
def mkBlock : List stmt → stmt
  | [] => .undef
  | s :: r => r.foldl .block s

/-- The forward pass of `scope_reducer::split_body` (optimizations.cc lines
217-225): the longest prefix on which `dep` is false, and the rest. -/
def split_fwd (dep : stmt → Bool) : List stmt → List stmt × List stmt
  | [] => ([], [])
  | s :: r =>
      if dep s then ([], s :: r)
      else
        let p := split_fwd dep r
        (s :: p.1, p.2)

/-- `scope_reducer::split_body` (optimizations.cc lines 213-241): split the
leaf statements into `(before, new_body, after)` where `before` is the
prefix before the first dependent statement, and `after` is the suffix
after the last dependent statement (computed by the backward pass on the
rest, `for_each_stmt_backward`). -/
def split_body (dep : stmt → Bool) (l : List stmt) : List stmt × List stmt × List stmt :=
  let p := split_fwd dep l
  let q := split_fwd dep p.2.reverse
  (p.1, q.2.reverse, q.1.reverse)

/-- The scoping nodes handled uniformly by `clone_with_new_body` and
`scope_reducer::visit_stmt` (optimizations.cc lines 17-40 and 248-273): a
node kind together with everything but its body. -/
inductive snode where
  | let_stmt (sym : Nat) (value : expr)
  | allocate (sym : Nat) (elem_size : Int) (dims : List dim_expr)
  | make_buffer (sym : Nat) (base : expr) (elem_size : expr) (dims : List dim_expr)
  | crop_buffer (sym : Nat) (bounds : box)
  | crop_dim (sym : Nat) (dim : Nat) (bounds : interval)
  | slice_buffer (sym : Nat) (at_ : List expr)
  | slice_dim (sym : Nat) (dim : Nat) (at_ : expr)
  | truncate_rank (sym : Nat) (rank : Nat)
deriving DecidableEq, Repr

/-- `clone_with_new_body` (optimizations.cc lines 17-40). -/
def snode.make : snode → stmt → stmt
  | .let_stmt sy v, b => .let_stmt sy v b
  | .allocate sy es dims, b => .allocate sy es dims b
  | .make_buffer sy base es dims, b => .make_buffer sy base es dims b
  | .crop_buffer sy bds, b => .crop_buffer sy bds b
  | .crop_dim sy d bd, b => .crop_dim sy d bd b
  | .slice_buffer sy xs, b => .slice_buffer sy xs b
  | .slice_dim sy d x, b => .slice_dim sy d x b
  | .truncate_rank sy r, b => .truncate_rank sy r b

/-- The bound symbol of a scoping node (`op->sym`). -/
def snode.sym : snode → Nat
  | .let_stmt sy _ => sy
  | .allocate sy _ _ => sy
  | .make_buffer sy _ _ _ => sy
  | .crop_buffer sy _ => sy
  | .crop_dim sy _ _ => sy
  | .slice_buffer sy _ => sy
  | .slice_dim sy _ _ => sy
  | .truncate_rank sy _ => sy

/-- `scope_reducer::visit_stmt` (optimizations.cc lines 248-264) applied to
an already-mutated body: split the body's leaves around the node's bound
symbol, re-wrap only the dependent run, and drop the node when nothing in
the body references its symbol (the "op was dead" branch). -/
def scope_visit (n : snode) (body : stmt) : stmt :=
  let p := split_body (fun s => stmt_depends_on s n.sym) (leaves body)
  match p.2.1 with
  | [] => mkBlock (p.1 ++ p.2.2)
  | nb => mkBlock (p.1 ++ [n.make (mkBlock nb)] ++ p.2.2)

/-- `reduce_scopes` (optimizations.cc lines 212-278): the scope reducer
mutator. Scoping nodes go through `scope_visit` on their mutated body; the
default mutator recurses through blocks and loops; leaves are unchanged. -/
def reduce_scopes : stmt → stmt
  | .block a b => .block (reduce_scopes a) (reduce_scopes b)
  | .let_stmt sy v b => scope_visit (.let_stmt sy v) (reduce_scopes b)
  | .allocate sy es dims b => scope_visit (.allocate sy es dims) (reduce_scopes b)
  | .make_buffer sy base es dims b =>
      scope_visit (.make_buffer sy base es dims) (reduce_scopes b)
  | .crop_buffer sy bds b => scope_visit (.crop_buffer sy bds) (reduce_scopes b)
  | .crop_dim sy d bd b => scope_visit (.crop_dim sy d bd) (reduce_scopes b)
  | .slice_buffer sy xs b => scope_visit (.slice_buffer sy xs) (reduce_scopes b)
  | .slice_dim sy d x b => scope_visit (.slice_dim sy d x) (reduce_scopes b)
  | .truncate_rank sy r b => scope_visit (.truncate_rank sy r) (reduce_scopes b)
  | .loop sy m bd st b => .loop sy m bd st (reduce_scopes b)
  | s => s

/-- Whether a statement tree contains a scoping node binding `sym` (used to
state that the scope reducer dropped a dead node). -/
def has_scoping_node (sym : Nat) : stmt → Bool
  | .undef | .call_stmt _ _ | .copy_stmt _ _ _ | .check _ => false
  | .block a b => has_scoping_node sym a || has_scoping_node sym b
  | .let_stmt sy _ b => sy == sym || has_scoping_node sym b
  | .loop _ _ _ _ b => has_scoping_node sym b
  | .allocate sy _ _ b => sy == sym || has_scoping_node sym b
  | .make_buffer sy _ _ _ b => sy == sym || has_scoping_node sym b
  | .crop_buffer sy _ b => sy == sym || has_scoping_node sym b
  | .crop_dim sy _ _ b => sy == sym || has_scoping_node sym b
  | .slice_buffer sy _ b => sy == sym || has_scoping_node sym b
  | .slice_dim sy _ _ b => sy == sym || has_scoping_node sym b
  | .truncate_rank sy _ b => sy == sym || has_scoping_node sym b

/-- `symbol_map<T>`: a map keyed by dense `symbol_id`, a vector of optional
values (spec §9 "Scoped symbol maps"; the symbol_map header is not under
src/, modelled as a list of optional entries). -/
def symbol_map (α : Type) : Type := List (Option α)

instance symbol_map_deceq (α : Type) [DecidableEq α] : DecidableEq (symbol_map α) :=
  inferInstanceAs (DecidableEq (List (Option α)))

/-- The empty symbol map. -/
def symbol_map.empty (α : Type) : symbol_map α := ([] : List (Option α))

/-- Lookup: entries beyond the vector's size are disengaged. -/
def symbol_map.get {α : Type} : symbol_map α → Nat → Option α
  | [], _ => none
  | x :: _, 0 => x
  | _ :: rest, n + 1 => symbol_map.get rest n

/-- Store, growing the vector with disengaged entries as needed. -/
def symbol_map.set {α : Type} : symbol_map α → Nat → Option α → symbol_map α
  | [], 0, v => [v]
  | [], n + 1, v => none :: symbol_map.set [] n v
  | _ :: rest, 0, v => v :: rest
  | x :: rest, n + 1, v => x :: symbol_map.set rest n v

/-- `symbol_map::contains`: the entry is engaged. -/
def symbol_map.contains {α : Type} (m : symbol_map α) (i : Nat) : Bool :=
  (m.get i).isSome

/-- The entries of a symbol map paired with their symbol ids, for the
passes' `for (symbol_id buf = 0; buf < m.size(); ++buf)` loops. -/
def symbol_map.entries {α : Type} (m : symbol_map α) : List (Nat × Option α) :=
  (List.range (List.length m)).zip m

/-- `vector_at` on an optional box (optimizations.cc lines 42-56): create or
grow the box so index `n` exists, new entries defaulting to the undefined
interval. -/
def box_ensure (b : Option box) (n : Nat) : box :=
  match b with
  | none => List.replicate (n + 1) interval.undefined
  | some bx =>
      if n < bx.length then bx else bx ++ List.replicate (n + 1 - bx.length) interval.undefined

/-- Overwrite the `min` of box entry `n` (out-of-range writes cannot happen
after `box_ensure`). -/
def box_set_min (bx : box) (n : Nat) (e : expr) : box :=
  match bx.get? n with
  | some iv => bx.set n { iv with min := e }
  | none => bx

/-- Overwrite the `max` of box entry `n`. -/
def box_set_max (bx : box) (n : Nat) (e : expr) : box :=
  match bx.get? n with
  | some iv => bx.set n { iv with max := e }
  | none => bx

/-- `merge_crop` on a single dimension (optimizations.cc lines 58-65): the
components of the new bounds that are defined overwrite the current crop's
components. -/
def merge_crop_dim (bounds : Option box) (dim : Nat) (nb : interval) : Option box :=
  let bounds := if nb.min.defined then some (box_set_min (box_ensure bounds dim) dim nb.min)
                else bounds
  let bounds := if nb.max.defined then some (box_set_max (box_ensure bounds dim) dim nb.max)
                else bounds
  bounds

/-- `merge_crop` on a whole box (optimizations.cc lines 67-71). -/
def merge_crop (bounds : Option box) (nbs : box) : Option box :=
  nbs.enum.foldl (fun acc p => merge_crop_dim acc p.1 p.2) bounds

/-- The per-allocation record of `buffer_aliaser` (optimizations.cc lines
86-89). The `std::set<symbol_id>` of alias candidates is modelled as a
`Finset Nat`; `*begin()` of a `std::set` is its minimum. -/
structure buffer_info where
  alias_candidates : Finset Nat := ∅
  elementwise : Bool := true
deriving DecidableEq

/-- `is_elementwise` (optimizations.cc lines 73-83): every dimension of the
consumed region structurally matches `[buffer_min(out,d), buffer_max(out,d)]`
(`match` from substitute.cc is not under src/ and is modelled from the spec
as structural equality). -/
def is_elementwise (in_x : box) (out : Nat) : Bool :=
  in_x.enum.all fun p =>
    p.2.min == .lbm (.var out) .bmin (.const p.1) &&
    p.2.max == .lbm (.var out) .bmax (.const p.1)

/-- The scoped state of `buffer_aliaser` (optimizations.cc lines 85-92). -/
structure alias_state where
  alias_info : symbol_map buffer_info := symbol_map.empty buffer_info
  buffer_bounds : symbol_map box := symbol_map.empty box
  aliases : symbol_map Nat := symbol_map.empty Nat
deriving DecidableEq

/-- One (output, input) pair of `buffer_aliaser::visit(const call_stmt*)`
(optimizations.cc lines 130-149), iterated over `outputs × inputs` in
source order. When the input has no `alias_info` entry, the source runs
`info->elementwise = false` on a disengaged `std::optional`; that undefined
behavior is modelled as `none`. -/
def alias_visit_call_pairs (st : alias_state) : List (Nat × Nat) → Option alias_state
  | [] => some st
  | (o, i) :: rest =>
      let in_x := st.buffer_bounds.get i
      let info := st.alias_info.get i
      if in_x.isNone || info.isNone then
        match info with
        | none => none
        | some inf =>
            some { st with alias_info := st.alias_info.set i (some { inf with elementwise := false }) }
      else
        match in_x, info with
        | some bx, some inf =>
            if !is_elementwise bx o then
              some { st with
                alias_info := st.alias_info.set i (some { inf with elementwise := false }) }
            else
              let inf' := { inf with alias_candidates := insert o inf.alias_candidates }
              alias_visit_call_pairs { st with alias_info := st.alias_info.set i (some inf') } rest
        | _, _ => none

/-- Entry to `buffer_aliaser::visit(const allocate*)` (optimizations.cc
lines 95-110): record the allocation's declared bounds and a fresh
elementwise `buffer_info` in scope. -/
def alias_enter_alloc (st : alias_state) (sym : Nat) (dims : List dim_expr) : alias_state :=
  { st with
    buffer_bounds := st.buffer_bounds.set sym (some (dims.map (·.bounds))),
    alias_info := st.alias_info.set sym (some {}) }

/-- The erase loop of `buffer_aliaser::visit(const allocate*)`
(optimizations.cc lines 119-122): remove `target` from every engaged
buffer's candidate set. -/
def alias_erase_candidates (target : Nat) (m : symbol_map buffer_info) :
    symbol_map buffer_info :=
  List.map (Option.map fun inf =>
    { inf with alias_candidates := inf.alias_candidates.erase target }) m

/-- `buffer_aliaser` as a state-threading mutator over statements
(optimizations.cc lines 85-169). `none` models the undefined behavior in
`visit(const call_stmt*)` and the `std::abort()` on slice/truncate nodes. -/
def alias_mutate (st : alias_state) : stmt → Option (alias_state × stmt)
  | .undef => some (st, .undef)
  | .check c => some (st, .check c)
  | .copy_stmt src xs dst => some (st, .copy_stmt src xs dst)
  | .call_stmt ins outs =>
      match alias_visit_call_pairs st (outs.flatMap fun o => ins.map fun i => (o, i)) with
      | none => none
      | some st' => some (st', .call_stmt ins outs)
  | .let_stmt sy v body =>
      match alias_mutate st body with
      | none => none
      | some (st', body') => some (st', .let_stmt sy v body')
  | .loop sy m bd step body =>
      match alias_mutate st body with
      | none => none
      | some (st', body') => some (st', .loop sy m bd step body')
  | .block a b =>
      match alias_mutate st a with
      | none => none
      | some (st1, a') =>
          match alias_mutate st1 b with
          | none => none
          | some (st2, b') => some (st2, .block a' b')
  | .make_buffer sy base es dims body =>
      match alias_mutate st body with
      | none => none
      | some (st', body') => some (st', .make_buffer sy base es dims body')
  | .crop_buffer sy bds body =>
      let saved := st.buffer_bounds.get sy
      let bounds := merge_crop (st.buffer_bounds.get sy) bds
      match alias_mutate { st with buffer_bounds := st.buffer_bounds.set sy bounds } body with
      | none => none
      | some (st', body') =>
          some ({ st' with buffer_bounds := st'.buffer_bounds.set sy saved },
                .crop_buffer sy bds body')
  | .crop_dim sy d bd body =>
      let saved := st.buffer_bounds.get sy
      let bounds := merge_crop_dim (st.buffer_bounds.get sy) d bd
      match alias_mutate { st with buffer_bounds := st.buffer_bounds.set sy bounds } body with
      | none => none
      | some (st', body') =>
          some ({ st' with buffer_bounds := st'.buffer_bounds.set sy saved },
                .crop_dim sy d bd body')
  | .allocate sy es dims body =>
      let saved_bb := st.buffer_bounds.get sy
      let saved_ai := st.alias_info.get sy
      match alias_mutate (alias_enter_alloc st sy dims) body with
      | none => none
      | some (st3, body') =>
          match st3.alias_info.get sy with
          | none => none
          | some info =>
              let st4r : alias_state × stmt :=
                if info.elementwise ∧ info.alias_candidates ≠ ∅ then
                  match info.alias_candidates.min with
                  | some target =>
                      ({ st3 with
                          aliases := st3.aliases.set sy (some target),
                          alias_info := alias_erase_candidates target st3.alias_info },
                       .let_stmt sy (.var target) body')
                  | none => (st3, .allocate sy es dims body')
                else (st3, .allocate sy es dims body')
              some ({ st4r.1 with
                        buffer_bounds := st4r.1.buffer_bounds.set sy saved_bb,
                        alias_info := st4r.1.alias_info.set sy saved_ai },
                    st4r.2)
  | .slice_buffer _ _ _ => none
  | .slice_dim _ _ _ _ => none
  | .truncate_rank _ _ _ => none

/-- `alias_buffers` (optimizations.cc line 173): run the aliaser with a
fresh state. -/
def alias_buffers (s : stmt) : Option stmt :=
  match alias_mutate {} s with
  | none => none
  | some (_, s') => some s'

/-- The scoped state of `bounds_inferrer` (infer_bounds.cc lines 223-226):
the inferred demanded region per allocation, and the active crop per
buffer. -/
structure infer_state where
  infer : symbol_map box := symbol_map.empty box
  crops : symbol_map box := symbol_map.empty box
deriving DecidableEq

/-- The substitution list built by `bounds_inferrer::visit(const allocate*)`
(infer_bounds.cc lines 238-255): per dimension, `buffer_min`, `buffer_max`,
`buffer_stride` and `buffer_extent` of the allocation are mapped to the
inferred values, with the running stride `stride *= min(extent,
buffer_fold_factor(sym,d))`. -/
def alloc_subst_go (sym : Nat) (d : Nat) (stride : expr) : box → List (expr × expr)
  | [] => []
  | bd :: rest =>
      (.lbm (.var sym) .bmin (.const d), bd.min) ::
      (.lbm (.var sym) .bmax (.const d), bd.max) ::
      (.lbm (.var sym) .bstride (.const d), stride) ::
      (.lbm (.var sym) .bextent (.const d), bd.extent) ::
      alloc_subst_go sym (d + 1)
        (.mul stride (.emin bd.extent (.lbm (.var sym) .bfold (.const d)))) rest

/-- The substitutions for an allocation with inferred box `bounds` and
element size `elem_size` (initial stride `elem_size`). -/
def alloc_substitutions (sym : Nat) (bounds : box) (elem_size : Int) : List (expr × expr) :=
  alloc_subst_go sym 0 (.const elem_size) bounds

/-- Apply one pass of a substitution list to a dimension descriptor
(the body of `recursive_substitute`, infer_bounds.cc lines 203-210). -/
def subst_dim (d : dim_expr) (subs : List (expr × expr)) : dim_expr :=
  subs.foldl (fun dm p =>
    { bounds := { min := substitute_expr dm.bounds.min p.1 p.2,
                  max := substitute_expr dm.bounds.max p.1 p.2 },
      stride := substitute_expr dm.stride p.1 p.2,
      fold_factor := substitute_expr dm.fold_factor p.1 p.2 }) d

/-- `recursive_substitute` (infer_bounds.cc lines 198-218) iterates the
substitution list to a fixed point; the C++ `while (true)` is modelled by a
fuel bound (ample for the terminating runs the passes perform). -/
def recursive_substitute_go : Nat → List dim_expr → List (expr × expr) → List dim_expr
  | 0, dims, _ => dims
  | fuel + 1, dims, subs =>
      let new_dims := dims.map (subst_dim · subs)
      if new_dims = dims then dims else recursive_substitute_go fuel new_dims subs

/-- `recursive_substitute` entry point. -/
def recursive_substitute (dims : List dim_expr) (subs : List (expr × expr)) : List dim_expr :=
  recursive_substitute_go 100 dims subs

/-- The loop of `bounds_inferrer::visit(const allocate*)` over the other
in-flight `infer` entries (infer_bounds.cc lines 271-280): apply the
allocation's substitutions to every engaged inferred box. -/
def infer_apply_subs_box (bx : box) (subs : List (expr × expr)) : box :=
  bx.map fun j =>
    { min := subs.foldl (fun e p => substitute_expr e p.1 p.2) j.min,
      max := subs.foldl (fun e p => substitute_expr e p.1 p.2) j.max }

/-- Apply an allocation's substitutions to a whole `infer` map. -/
def infer_apply_subs_map (m : symbol_map box) (subs : List (expr × expr)) : symbol_map box :=
  List.map (Option.map (infer_apply_subs_box · subs)) m

/-- The per-interval transformation of `bounds_inferrer::visit(const loop*)`
(infer_bounds.cc lines 340-352): a bound that mentions the loop variable is
replaced by the simplified `min` (resp. `max`) of the bound evaluated at
the loop's min and at its max. -/
def infer_union_interval (sym : Nat) (bds : interval) (j : interval) : interval :=
  let jmin := if depends_on j.min sym then
      simplify_min (substitute j.min sym bds.min) (substitute j.min sym bds.max)
    else j.min
  let jmax := if depends_on j.max sym then
      simplify_max (substitute j.max sym bds.min) (substitute j.max sym bds.max)
    else j.max
  { min := jmin, max := jmax }

/-- The exit portion of `bounds_inferrer::visit(const loop*)` (infer_bounds.cc
lines 334-355): rewrite every engaged inferred box through
`infer_union_interval` and wrap the statement, ascending over symbol ids, in
a `crop_buffer` carrying each inferred region. -/
def infer_exit_loop (m : symbol_map box) (sym : Nat) (bds : interval) (base : stmt) :
    symbol_map box × stmt :=
  let m' : symbol_map box :=
    List.map (Option.map (List.map (infer_union_interval sym bds))) m
  let result := (symbol_map.entries m').foldl
    (fun acc p => match p.2 with
      | some bx => stmt.crop_buffer p.1 bx acc
      | none => acc) base
  (m', result)

/-- `bounds_inferrer` as a state-threading mutator (infer_bounds.cc lines
223-357). `none` models the `std::abort()` on slice/truncate nodes and the
dereference of a disengaged optional at an `allocate` whose `infer` entry
was overwritten by a disengaged crop. The empty `checks` vector of
`visit(const allocate*)` (its contents are commented out in the source)
contributes nothing, so the allocate is emitted directly. -/
def infer_mutate (st : infer_state) : stmt → Option (infer_state × stmt)
  | .undef => some (st, .undef)
  | .check c => some (st, .check c)
  | .call_stmt ins outs =>
      let st' := ins.foldl (fun acc i =>
        if acc.infer.contains i then { acc with infer := acc.infer.set i (acc.crops.get i) }
        else acc) st
      some (st', .call_stmt ins outs)
  | .copy_stmt src xs dst =>
      let st' := if st.infer.contains src then
          { st with infer := st.infer.set src (st.crops.get src) }
        else st
      some (st', .copy_stmt src xs dst)
  | .let_stmt sy v body =>
      match infer_mutate st body with
      | none => none
      | some (st', body') => some (st', .let_stmt sy v body')
  | .block a b =>
      match infer_mutate st a with
      | none => none
      | some (st1, a') =>
          match infer_mutate st1 b with
          | none => none
          | some (st2, b') => some (st2, .block a' b')
  | .make_buffer sy base es dims body =>
      match infer_mutate st body with
      | none => none
      | some (st', body') => some (st', .make_buffer sy base es dims body')
  | .crop_buffer sy bds body =>
      let saved := st.crops.get sy
      let crop := merge_crop (st.crops.get sy) bds
      match infer_mutate { st with crops := st.crops.set sy crop } body with
      | none => none
      | some (st', body') =>
          some ({ st' with crops := st'.crops.set sy saved }, .crop_buffer sy bds body')
  | .crop_dim sy d bd body =>
      let saved := st.crops.get sy
      let crop := merge_crop_dim (st.crops.get sy) d bd
      match infer_mutate { st with crops := st.crops.set sy crop } body with
      | none => none
      | some (st', body') =>
          some ({ st' with crops := st'.crops.set sy saved }, .crop_dim sy d bd body')
  | .allocate sy es dims body =>
      let saved := st.infer.get sy
      match infer_mutate { st with infer := st.infer.set sy (some []) } body with
      | none => none
      | some (st1, body') =>
          match st1.infer.get sy with
          | none => none
          | some bounds =>
              let subs := alloc_substitutions sy bounds es
              let dims' := recursive_substitute dims subs
              let st2 := { st1 with infer := infer_apply_subs_map st1.infer subs }
              some ({ st2 with infer := st2.infer.set sy saved },
                    .allocate sy es dims' body')
  | .loop sy mode bds step body =>
      match infer_mutate st body with
      | none => none
      | some (st1, body') =>
          let p := infer_exit_loop st1.infer sy bds (.loop sy mode bds step body')
          some ({ st1 with infer := p.1 }, p.2)
  | .slice_buffer _ _ _ => none
  | .slice_dim _ _ _ _ => none
  | .truncate_rank _ _ _ => none

/-- The seed state of the anonymous-namespace `infer_bounds` (infer_bounds.cc
lines 607-612): the formal inputs' bounds are inferred too. -/
def infer_seed (inputs : List Nat) : infer_state :=
  { infer := inputs.foldl (fun m i => m.set i (some [])) (symbol_map.empty box),
    crops := symbol_map.empty box }

/-- The check emission of `infer_bounds` (infer_bounds.cc lines 615-625):
per formal input and per dimension of its inferred region,
`check(buffer_min(in,d) <= min_d)`, `check(buffer_max(in,d) >= max_d)`
(`a >= b` desugars to `less_equal(b, a)`, part_003 line 133), and
`check(extent_d <= buffer_fold_factor(in,d))`. `none` models the
dereference `*infer.infer[i]` of a disengaged entry. -/
def input_checks (m : symbol_map box) : List Nat → Option (List stmt)
  | [] => some []
  | i :: rest =>
      match m.get i with
      | none => none
      | some bounds =>
          let cs := bounds.enum.flatMap fun p =>
            [ stmt.check (.le (.lbm (.var i) .bmin (.const p.1)) p.2.min),
              stmt.check (.le p.2.max (.lbm (.var i) .bmax (.const p.1))),
              stmt.check (.le p.2.extent (.lbm (.var i) .bfold (.const p.1))) ]
          match input_checks m rest with
          | none => none
          | some more => some (cs ++ more)

/-- The anonymous-namespace `infer_bounds` (infer_bounds.cc lines 607-627):
run the inferrer with the inputs seeded, then prepend the input checks. -/
def infer_bounds (s : stmt) (inputs : List Nat) : Option stmt :=
  match infer_mutate (infer_seed inputs) s with
  | none => none
  | some (st1, result) =>
      match input_checks st1.infer inputs with
      | none => none
      | some checks => some (.block (mkBlock checks) result)

/-- The checks the claim describes, written from the spec's words (§4.3
step 5): per formal input and per dimension of its inferred region,
`Check(BufferMin(in,d) ≤ required_min_d)`, `Check(BufferMax(in,d) ≥
required_max_d)` and `Check(required_extent_d ≤ BufferFoldFactor(in,d))`.
Kept separate from `input_checks` so the code's emission can be compared
against the claim's description. -/
def spec_input_checks (i : Nat) (bounds : box) : List stmt :=
  bounds.enum.flatMap fun p =>
    [ stmt.check (.le (.lbm (.var i) .bmin (.const p.1)) p.2.min),
      stmt.check (.le p.2.max (.lbm (.var i) .bmax (.const p.1))),
      stmt.check (.le p.2.extent (.lbm (.var i) .bfold (.const p.1))) ]

/-- `is_variable(e, sym)` (used by `slide_and_fold_storage::visit(const
loop*)`): the expression is exactly the given variable. -/
def is_variable (e : expr) (sym : Nat) : Bool := e == .var sym

/-- Modelled from the spec: `align_up(x, n)` (runtime/util is not under
src/): round `x` up to a multiple of `n`, `((x + n - 1) / n) * n`. -/
def align_up (x n : expr) : expr := .mul (.div (.sub (.add x n) (.const 1)) n) n

/-- Modelled from the spec: the `max` of `bounds_of(e)` (§4.4 "max of cur's
extent"; simplify.cc is not under src/): an affine form over no variables is
its own upper bound; an affine form with variables is kept (the caller's
`depends_on` guard then rejects it); anything else is unbounded above. -/
def bounds_of_max (e : expr) : expr :=
  match lin e with
  | some (c, []) => .const c
  | some (c, l) => lin_rebuild c l
  | none => .posInf

/-- Modelled from the spec: `where_true(e, x).max` (§4.4 "solve
min_at_new_loop_min(x) ≤ min_at_orig_loop_min for the largest x";
simplify.cc is not under src/). For a comparison whose normal form is
affine in `x` with negative coefficient, the largest solution is rebuilt
from the remaining terms; a condition not constraining `x` from above gives
positive infinity; anything unsolvable gives negative infinity (no finite
solution). -/
def where_true_max (e : expr) (x : Nat) : expr :=
  match e with
  | .le a b =>
      match lin (.sub b a) with
      | some (c, l) =>
          let ax := (List.lookup x l).getD 0
          let others := l.filter (fun p => p.1 ≠ x)
          if ax < 0 then
            if others = [] then .const (Int.fdiv c (-ax))
            else if ax = -1 then lin_rebuild c others
            else .div (lin_rebuild c others) (.const (-ax))
          else if ax = 0 then
            (if others = [] then (if 0 ≤ c then .posInf else .negInf) else .negInf)
          else .posInf
      | none => .negInf
  | _ => .negInf

/-- The per-loop record of `slide_and_fold_storage` (infer_bounds.cc lines
377-382). -/
structure loop_info where
  sym : Nat
  orig_min : expr
  bounds : interval
  step : expr
deriving DecidableEq, Repr

/-- The state of `slide_and_fold_storage` (infer_bounds.cc lines 372-388):
buffer bounds and fold factors per symbol, the stack of enclosing serial
loops, the unknown `x` minted at construction, and the `node_context`'s
next fresh symbol id. -/
structure slide_state where
  buffer_bounds : symbol_map box := symbol_map.empty box
  fold_factors : symbol_map (Nat × expr) := symbol_map.empty (Nat × expr)
  loops : List loop_info := []
  x : Nat
  ctx : Nat
deriving DecidableEq

/-- `substitute_bounds(expr, sym, box)` (§4.2; substitute.cc is not under
src/), modelled from the spec: `BufferMin(sym,d) → box[d].min`,
`BufferMax(sym,d) → box[d].max`, `BufferExtent(sym,d) → box[d].extent()`,
recursing structurally. -/
def substitute_bounds_expr (e : expr) (sym : Nat) (bx : box) : expr :=
  match e with
  | .lbm b m d =>
      let b' := substitute_bounds_expr b sym bx
      let d' := substitute_bounds_expr d sym bx
      match b', d' with
      | .var s, .const dv =>
          if s = sym ∧ 0 ≤ dv ∧ dv.toNat < bx.length then
            match bx.get? dv.toNat with
            | some iv =>
                match m with
                | .bmin => iv.min
                | .bmax => iv.max
                | .bextent => iv.extent
                | _ => .lbm b' m d'
            | none => .lbm b' m d'
          else .lbm b' m d'
      | _, _ => .lbm b' m d'
  | .add a b => .add (substitute_bounds_expr a sym bx) (substitute_bounds_expr b sym bx)
  | .sub a b => .sub (substitute_bounds_expr a sym bx) (substitute_bounds_expr b sym bx)
  | .mul a b => .mul (substitute_bounds_expr a sym bx) (substitute_bounds_expr b sym bx)
  | .div a b => .div (substitute_bounds_expr a sym bx) (substitute_bounds_expr b sym bx)
  | .emin a b => .emin (substitute_bounds_expr a sym bx) (substitute_bounds_expr b sym bx)
  | .emax a b => .emax (substitute_bounds_expr a sym bx) (substitute_bounds_expr b sym bx)
  | .eq a b => .eq (substitute_bounds_expr a sym bx) (substitute_bounds_expr b sym bx)
  | .le a b => .le (substitute_bounds_expr a sym bx) (substitute_bounds_expr b sym bx)
  | .lt a b => .lt (substitute_bounds_expr a sym bx) (substitute_bounds_expr b sym bx)
  | .land a b => .land (substitute_bounds_expr a sym bx) (substitute_bounds_expr b sym bx)
  | .select c t f => .select (substitute_bounds_expr c sym bx)
      (substitute_bounds_expr t sym bx) (substitute_bounds_expr f sym bx)
  | other => other

/-- `substitute_bounds(box, symbol_map<box>)` (infer_bounds.cc lines
359-367): specialize every engaged buffer's metadata in each defined
component of the box. -/
def substitute_bounds_box (bx : box) (buffers : symbol_map box) : box :=
  (symbol_map.entries buffers).foldl
    (fun acc p =>
      match p.2 with
      | none => acc
      | some bbx => acc.map fun j =>
          { min := if j.min.defined then substitute_bounds_expr j.min p.1 bbx else j.min,
            max := if j.max.defined then substitute_bounds_expr j.max p.1 bbx else j.max })
    bx

/-- The result of the per-dimension body of
`slide_and_fold_storage::visit_call_or_copy` (infer_bounds.cc lines
438-511): either continue with the next dimension (possibly recording a
fold factor) or break out of the dimension loop after a slide. -/
inductive dim_step where
  | cont (cur : interval) (fold : Option expr)
  | brk (cur : interval) (fold : Option expr) (new_loop_min : Option expr)
deriving DecidableEq, Repr

/-- One dimension of `visit_call_or_copy` against one enclosing loop
(infer_bounds.cc lines 438-511): no transformation when the bounds do not
mention the loop variable; storage folding when the previous and current
iterations' bounds provably do not overlap (under the buggy union-shaped
`operator&`); sliding when they are provably monotonically increasing, with
the loop min moved to the largest solution of `new_min_at_x ≤
old_min_at_loop_min`, or a `select` warm-up when no finite solution exists.
The loop's own max is replaced by positive infinity before proving
(`ignore_loop_max`). -/
def slide_dim_step (x : Nat) (li : loop_info) (cur : interval) : dim_step :=
  if !(depends_on cur.min li.sym || depends_on cur.max li.sym) then .cont cur none
  else
    let loop_var := expr.var li.sym
    let prev : interval :=
      { min := substitute cur.min li.sym (.sub loop_var li.step),
        max := substitute cur.max li.sym (.sub loop_var li.step) }
    let ign := fun e => substitute_expr e li.bounds.max .posInf
    let overlap := interval.op_and prev cur
    if prove_true (ign overlap.empty_test) then
      let fold := simplify (bounds_of_max (ign cur.extent))
      if !depends_on fold li.sym then .cont cur (some fold) else .cont cur none
    else
      let inc := expr.land (.le prev.min cur.min) (.le prev.max cur.max)
      let dec := expr.land (.le cur.min prev.min) (.le cur.max prev.max)
      if prove_true (ign inc) then
        let old_min := cur.min
        let new_min := simplify (.add prev.max (.const 1))
        let fold0 := simplify (bounds_of_max (ign cur.extent))
        let fold := if !depends_on fold0 li.sym then some (simplify (align_up fold0 li.step))
                    else none
        let new_min_at_x := substitute new_min li.sym (.var x)
        let old_min_at_loop_min := substitute old_min li.sym li.bounds.min
        let new_loop_min := where_true_max (ign (.le new_min_at_x old_min_at_loop_min)) x
        if !(new_loop_min == .negInf) then
          .brk { cur with min := new_min } fold (some new_loop_min)
        else
          .brk { cur with min := .select (.eq loop_var li.orig_min) old_min new_min } fold none
      else if prove_true (ign dec) then .cont cur none
      else .cont cur none

/-- The dimension loop of `visit_call_or_copy` for one enclosing loop
(infer_bounds.cc lines 438-511), threading the box, the (last-written)
fold-factor record and the pending loop-min update; `break` stops the
scan. -/
def slide_dims_aux (x : Nat) (li : loop_info) :
    Nat → Option (Nat × expr) → List interval →
    List interval × Option (Nat × expr) × Option expr
  | _, ff, [] => ([], ff, none)
  | d, ff, cur :: rest =>
      match slide_dim_step x li cur with
      | .cont cur' none =>
          let p := slide_dims_aux x li (d + 1) ff rest
          (cur' :: p.1, p.2.1, p.2.2)
      | .cont cur' (some f) =>
          let p := slide_dims_aux x li (d + 1) (some (d, f)) rest
          (cur' :: p.1, p.2.1, p.2.2)
      | .brk cur' fold nlm =>
          (cur' :: rest,
           (match fold with | some f => some (d, f) | none => ff),
           nlm)

/-- The loop-stack scan of `visit_call_or_copy` (infer_bounds.cc lines
432-512): process the enclosing loops outermost-first, applying each one's
pending loop-min update in place. -/
def slide_loops_aux (x : Nat) :
    List loop_info → List interval → Option (Nat × expr) →
    List loop_info × List interval × Option (Nat × expr)
  | [], bx, ff => ([], bx, ff)
  | li :: rest, bx, ff =>
      let p := slide_dims_aux x li 0 ff bx
      let li' := match p.2.2 with
        | some m => { li with bounds := { li.bounds with min := m } }
        | none => li
      let q := slide_loops_aux x rest p.1 p.2.1
      (li' :: q.1, q.2.1, q.2.2)

/-- One output of `visit_call_or_copy` (infer_bounds.cc lines 428-513):
outputs without buffer bounds in scope are skipped; otherwise the box, the
loop stack and the output's fold factor entry are updated. -/
def slide_visit_output (st : slide_state) (output : Nat) : slide_state :=
  match st.buffer_bounds.get output with
  | none => st
  | some bx =>
      let p := slide_loops_aux st.x st.loops bx (st.fold_factors.get output)
      { st with
        loops := p.1,
        buffer_bounds := st.buffer_bounds.set output (some p.2.1),
        fold_factors := st.fold_factors.set output p.2.2 }

/-- `visit_call_or_copy` over all outputs (infer_bounds.cc lines 425-523);
the statement itself is returned unchanged. -/
def slide_visit_call (st : slide_state) (outputs : List Nat) : slide_state :=
  outputs.foldl slide_visit_output st

/-- `slide_and_fold_storage` as a state-threading mutator (infer_bounds.cc
lines 372-605). Parallel loops are passed through by the default mutator;
serial loops mint a fresh `orig_min` variable, push a stack entry, and on
exit wrap the loop in a `let` when the loop min was rewritten or used.
Blocks are visited in reverse order. `none` models the `std::abort()` on
slice/truncate nodes and the dereferences of disengaged optionals in
`visit(const crop_dim*)`. -/
def slide_mutate (st : slide_state) : stmt → Option (slide_state × stmt)
  | .undef => some (st, .undef)
  | .check c => some (st, .check c)
  | .call_stmt ins outs => some (slide_visit_call st outs, .call_stmt ins outs)
  | .copy_stmt src xs dst => some (slide_visit_call st [dst], .copy_stmt src xs dst)
  | .let_stmt sy v body =>
      match slide_mutate st body with
      | none => none
      | some (st', body') => some (st', .let_stmt sy v body')
  | .block a b =>
      match slide_mutate st b with
      | none => none
      | some (st1, b') =>
          match slide_mutate st1 a with
          | none => none
          | some (st2, a') => some (st2, .block a' b')
  | .make_buffer sy base es dims body =>
      match slide_mutate st body with
      | none => none
      | some (st', body') => some (st', .make_buffer sy base es dims body')
  | .crop_buffer sy bds body =>
      let saved := st.buffer_bounds.get sy
      let bounds0 := merge_crop (st.buffer_bounds.get sy) bds
      let bounds1 := match bounds0 with
        | some bx => some (substitute_bounds_box bx st.buffer_bounds)
        | none => none
      match slide_mutate { st with buffer_bounds := st.buffer_bounds.set sy bounds1 } body with
      | none => none
      | some (st2, body') =>
          let result := match st2.buffer_bounds.get sy with
            | some new_bounds => stmt.crop_buffer sy new_bounds body'
            | none => stmt.crop_buffer sy bds body'
          some ({ st2 with buffer_bounds := st2.buffer_bounds.set sy saved }, result)
  | .crop_dim sy d bd body =>
      let saved := st.buffer_bounds.get sy
      match merge_crop_dim (st.buffer_bounds.get sy) d bd with
      | none => none
      | some bx0 =>
          let bounds1 := substitute_bounds_box bx0 st.buffer_bounds
          match slide_mutate
              { st with buffer_bounds := st.buffer_bounds.set sy (some bounds1) } body with
          | none => none
          | some (st2, body') =>
              match st2.buffer_bounds.get sy with
              | none => none
              | some nb =>
                  match nb.get? d with
                  | none => none
                  | some iv =>
                      some ({ st2 with buffer_bounds := st2.buffer_bounds.set sy saved },
                            .crop_dim sy d iv body')
  | .allocate sy es dims body =>
      let saved := st.buffer_bounds.get sy
      let st1 := { st with
        buffer_bounds := st.buffer_bounds.set sy (some (dims.map (·.bounds))) }
      match slide_mutate st1 body with
      | none => none
      | some (st2, body') =>
          let fold_info := st2.fold_factors.get sy
          let replacements := (List.range dims.length).map fun d =>
            match fold_info with
            | some fi =>
                if fi.1 = d then (expr.lbm (.var sy) .bfold (.const d), fi.2)
                else (expr.lbm (.var sy) .bfold (.const d), expr.posInf)
            | none => (expr.lbm (.var sy) .bfold (.const d), expr.posInf)
          let dims' := recursive_substitute dims replacements
          let dims2 := dims'.map fun dm =>
            if dm.fold_factor = .posInf then { dm with fold_factor := .undef } else dm
          some ({ st2 with buffer_bounds := st2.buffer_bounds.set sy saved },
                .allocate sy es dims2 body')
  | .loop sy mode bds step body =>
      match mode with
      | .parallel =>
          match slide_mutate st body with
          | none => none
          | some (st', body') => some (st', .loop sy .parallel bds step body')
      | .serial =>
          let orig_sym := st.ctx
          let st0 := { st with
            ctx := st.ctx + 1,
            loops := st.loops ++
              [{ sym := sy, orig_min := .var orig_sym,
                 bounds := { min := .var orig_sym, max := bds.max }, step := step }] }
          match slide_mutate st0 body with
          | none => none
          | some (st1, body') =>
              match st1.loops.getLast? with
              | none => none
              | some back =>
                  let st2 := { st1 with loops := st1.loops.dropLast }
                  let loop_min0 := back.bounds.min
                  let loop_min := if loop_min0 = .var orig_sym then bds.min else loop_min0
                  if !is_variable loop_min orig_sym || stmt_depends_on body' orig_sym then
                    some (st2, .let_stmt orig_sym bds.min
                      (.loop sy .serial { min := loop_min, max := bds.max } step body'))
                  else
                    some (st2, .loop sy .serial bds step body')
  | .slice_buffer _ _ _ => none
  | .slice_dim _ _ _ _ => none
  | .truncate_rank _ _ _ => none

/-- `slide_and_fold_storage(ctx).mutate(s)` (infer_bounds.cc line 637): run
the pass with a fresh state whose unknown `x` is minted from the context. -/
def slide_and_fold (s : stmt) (ctx : Nat) : Option stmt :=
  let st0 : slide_state := { x := ctx, ctx := ctx + 1 }
  match slide_mutate st0 s with
  | none => none
  | some (_, s') => some s'

/-- The `node_type` discriminator enum of src/src/expr.h lines 34-54
(`variable` and `constant` are Lean keywords, hence the `_t` suffix). -/
inductive node_type where
  | variable_t | constant_t | let_t | add_t | sub_t | mul_t | div_t | mod_t
  | min_t | max_t
deriving DecidableEq, Repr

/-- `variable::static_type` (src/src/expr.h line 156): `node_type::variable`. -/
def variable_static_type : node_type := .variable_t

/-- `constant::static_type` as written in src/src/expr.h line 168:
`static constexpr node_type static_type = node_type::variable;`. -/
def constant_static_type : node_type := .variable_t

/-- The leaf nodes of the expression class hierarchy relevant here; the
constructor payloads mirror `variable::name` and `constant::value`. -/
inductive base_node where
  | variable_node (name : Nat)
  | constant_node (value : Int)
deriving DecidableEq, Repr

/-- The `type` field a node is constructed with:
`expr_node<T>() : base_node(T::static_type)` (src/src/expr.h lines 82-86). -/
def base_node.type : base_node → node_type
  | .variable_node _ => variable_static_type
  | .constant_node _ => constant_static_type

/-- `base_node::as<variable>() != nullptr` (src/src/expr.h lines 72-79):
the stored tag equals `variable::static_type`. -/
def as_variable (n : base_node) : Bool := n.type == variable_static_type

/-- `base_node::as<constant>() != nullptr`: the stored tag equals
`constant::static_type`. -/
def as_constant (n : base_node) : Bool := n.type == constant_static_type

theorem symbol_map.get_set_self {α : Type} (m : symbol_map α) (i : Nat) (v : Option α) :
    (m.set i v).get i = v := by
  induction m generalizing i with
  | nil =>
      induction i with
      | zero => rfl
      | succ n ih => simpa [symbol_map.set, symbol_map.get] using ih
  | cons x rest ih =>
      cases i with
      | zero => rfl
      | succ n => simpa [symbol_map.set, symbol_map.get] using ih n

theorem symbol_map.get_set_ne {α : Type} (m : symbol_map α) (i j : Nat) (v : Option α)
    (h : i ≠ j) : (m.set i v).get j = m.get j := by
  induction m generalizing i j with
  | nil =>
      induction i generalizing j with
      | zero =>
          cases j with
          | zero => exact absurd rfl h
          | succ n => rfl
      | succ n ih =>
          cases j with
          | zero => rfl
          | succ k => simpa [symbol_map.set, symbol_map.get] using ih k (by omega)
  | cons x rest ih =>
      cases i with
      | zero =>
          cases j with
          | zero => exact absurd rfl h
          | succ k => rfl
      | succ n =>
          cases j with
          | zero => rfl
          | succ k => simpa [symbol_map.set, symbol_map.get] using ih n k (by omega)

theorem symbol_map.get_map_opt {α β : Type} (f : α → β) (m : symbol_map α) (i : Nat) :
    symbol_map.get (List.map (Option.map f) m) i = Option.map f (symbol_map.get m i) := by
  induction m generalizing i with
  | nil => rfl
  | cons x rest ih =>
      cases i with
      | zero => rfl
      | succ n => simpa [symbol_map.get] using ih n

theorem split_fwd_append (dep : stmt → Bool) (l : List stmt) :
    (split_fwd dep l).1 ++ (split_fwd dep l).2 = l := by
  induction l with
  | nil => rfl
  | cons s r ih =>
      by_cases h : dep s
      · simp [split_fwd, h]
      · simp [split_fwd, h, ih]

theorem split_fwd_before {dep : stmt → Bool} {l : List stmt} {s : stmt}
    (hs : s ∈ (split_fwd dep l).1) : dep s = false := by
  induction l with
  | nil => simp [split_fwd] at hs
  | cons a r ih =>
      by_cases h : dep a
      · simp [split_fwd, h] at hs
      · simp [split_fwd, h] at hs
        rcases hs with rfl | hs
        · simpa using h
        · exact ih hs

theorem split_fwd_mem_rest {dep : stmt → Bool} {l : List stmt} {s : stmt}
    (hs : s ∈ l) (hdep : dep s = true) : s ∈ (split_fwd dep l).2 := by
  have h1 : s ∈ (split_fwd dep l).1 ++ (split_fwd dep l).2 := by
    rw [split_fwd_append]; exact hs
  rcases List.mem_append.mp h1 with h | h
  · rw [split_fwd_before h] at hdep; cases hdep
  · exact h

theorem split_body_append (dep : stmt → Bool) (l : List stmt) :
    (split_body dep l).1 ++ (split_body dep l).2.1 ++ (split_body dep l).2.2 = l := by
  have hq := split_fwd_append dep (split_fwd dep l).2.reverse
  have h2 : (split_body dep l).2.1 ++ (split_body dep l).2.2 = (split_fwd dep l).2 := by
    simp only [split_body]
    rw [← List.reverse_append, hq, List.reverse_reverse]
  rw [List.append_assoc, h2]
  simpa [split_body] using split_fwd_append dep l

theorem split_body_before {dep : stmt → Bool} {l : List stmt} {s : stmt}
    (hs : s ∈ (split_body dep l).1) : dep s = false :=
  split_fwd_before (by simpa [split_body] using hs)

theorem split_body_after {dep : stmt → Bool} {l : List stmt} {s : stmt}
    (hs : s ∈ (split_body dep l).2.2) : dep s = false := by
  simp only [split_body, List.mem_reverse] at hs
  exact split_fwd_before hs

theorem split_body_mem_new_body {dep : stmt → Bool} {l : List stmt} {s : stmt}
    (hs : s ∈ l) (hdep : dep s = true) : s ∈ (split_body dep l).2.1 := by
  have h1 : s ∈ (split_body dep l).1 ++ (split_body dep l).2.1 ++ (split_body dep l).2.2 := by
    rw [split_body_append]; exact hs
  rcases List.mem_append.mp h1 with h | h
  · rcases List.mem_append.mp h with h | h
    · rw [split_body_before h] at hdep; cases hdep
    · exact h
  · rw [split_body_after h] at hdep; cases hdep

theorem split_body_new_body_ne {dep : stmt → Bool} {l : List stmt}
    (h : ∃ s ∈ l, dep s = true) : (split_body dep l).2.1 ≠ [] := by
  obtain ⟨s, hs, hdep⟩ := h
  have := split_body_mem_new_body hs hdep
  intro hnil
  rw [hnil] at this
  simp at this

theorem eval_substitute_const (e : expr) (sym : Nat) (k : Int) (ρ : Nat → Int) :
    eval (substitute e sym (.const k)) ρ = eval e (Function.update ρ sym k) := by
  induction e with
  | undef => rfl
  | var s =>
      by_cases h : s = sym
      · subst h; simp [substitute, eval, Function.update]
      · simp [substitute, h, eval, Function.update]
  | const v => rfl
  | add a b iha ihb => simp [substitute, eval, iha, ihb]
  | sub a b iha ihb => simp [substitute, eval, iha, ihb]
  | mul a b iha ihb => simp [substitute, eval, iha, ihb]
  | div a b iha ihb => simp [substitute, eval, iha, ihb]
  | emin a b iha ihb => simp [substitute, eval, iha, ihb]
  | emax a b iha ihb => simp [substitute, eval, iha, ihb]
  | eq a b iha ihb => simp [substitute, eval, iha, ihb]
  | le a b iha ihb => simp [substitute, eval, iha, ihb]
  | lt a b iha ihb => simp [substitute, eval, iha, ihb]
  | land a b iha ihb => simp [substitute, eval, iha, ihb]
  | select c t f ihc iht ihf => simp [substitute, eval, ihc, iht, ihf]
  | posInf => rfl
  | negInf => rfl
  | lbm b m d ihb ihd => simp [substitute, eval]

theorem cfold_eval (e : expr) (v : Int) (h : cfold e = some v) (ρ : Nat → Int) :
    eval e ρ = some v := by
  induction e generalizing v with
  | undef => cases h
  | var s => cases h
  | const w => cases h; rfl
  | add a b iha ihb =>
      cases ha : cfold a <;> cases hb : cfold b <;> simp [cfold, ha, hb] at h
      simp [eval, iha _ ha, ihb _ hb, h]
  | sub a b iha ihb =>
      cases ha : cfold a <;> cases hb : cfold b <;> simp [cfold, ha, hb] at h
      simp [eval, iha _ ha, ihb _ hb, h]
  | mul a b iha ihb =>
      cases ha : cfold a <;> cases hb : cfold b <;> simp [cfold, ha, hb] at h
      simp [eval, iha _ ha, ihb _ hb, h]
  | div a b iha ihb =>
      cases ha : cfold a <;> cases hb : cfold b <;> simp [cfold, ha, hb] at h
      rcases h with ⟨hz, hv⟩
      simp [eval, iha _ ha, ihb _ hb, hz, hv]
  | emin a b iha ihb =>
      cases ha : cfold a <;> cases hb : cfold b <;> simp [cfold, ha, hb] at h
      simp [eval, iha _ ha, ihb _ hb, h]
  | emax a b iha ihb =>
      cases ha : cfold a <;> cases hb : cfold b <;> simp [cfold, ha, hb] at h
      simp [eval, iha _ ha, ihb _ hb, h]
  | eq a b iha ihb =>
      cases ha : cfold a <;> cases hb : cfold b <;> simp [cfold, ha, hb] at h
      simp [eval, iha _ ha, ihb _ hb, ← h]
  | le a b iha ihb =>
      cases ha : cfold a <;> cases hb : cfold b <;> simp [cfold, ha, hb] at h
      simp [eval, iha _ ha, ihb _ hb, ← h]
  | lt a b iha ihb =>
      cases ha : cfold a <;> cases hb : cfold b <;> simp [cfold, ha, hb] at h
      simp [eval, iha _ ha, ihb _ hb, ← h]
  | land a b iha ihb =>
      cases ha : cfold a <;> cases hb : cfold b <;> simp [cfold, ha, hb] at h
      simp [eval, iha _ ha, ihb _ hb, ← h]
  | select c t f ihc iht ihf =>
      cases hc : cfold c <;> simp [cfold, hc] at h
      rename_i cv
      by_cases hz : cv ≠ 0
      · simp [hz] at h
        simp [eval, ihc _ hc, hz, iht _ h]
      · simp at hz
        subst hz
        simp at h
        simp [eval, ihc _ hc, ihf _ h]
  | posInf => cases h
  | negInf => cases h
  | lbm b m d ihb ihd => cases h

theorem coeff_insert_val (v : Nat) (a : Int) (l : List (Nat × Int)) (ρ : Nat → Int) :
    ((coeff_insert v a l).map fun p => p.2 * ρ p.1).sum =
      a * ρ v + (l.map fun p => p.2 * ρ p.1).sum := by
  induction l with
  | nil => by_cases h : a = 0 <;> simp [coeff_insert, h]
  | cons p rest ih =>
      obtain ⟨w, b⟩ := p
      by_cases h1 : v < w
      · by_cases h2 : a = 0 <;> simp [coeff_insert, h1, h2]
      · by_cases h2 : v = w
        · subst h2
          by_cases h3 : a + b = 0
          · have hab : a = -b := by omega
            simp [coeff_insert, h1, h3, hab]
          · simp [coeff_insert, h1, h3]
            ring
        · simp [coeff_insert, h1, h2, ih]
          ring

theorem coeff_add_val (l r : List (Nat × Int)) (ρ : Nat → Int) :
    ((coeff_add l r).map fun p => p.2 * ρ p.1).sum =
      (l.map fun p => p.2 * ρ p.1).sum + (r.map fun p => p.2 * ρ p.1).sum := by
  induction l with
  | nil => simp [coeff_add]
  | cons p rest ih =>
      have : coeff_add (p :: rest) r = coeff_insert p.1 p.2 (coeff_add rest r) := rfl
      rw [this, coeff_insert_val, ih]
      simp
      ring

theorem coeff_scale_val (k : Int) (l : List (Nat × Int)) (ρ : Nat → Int) :
    ((coeff_scale k l).map fun p => p.2 * ρ p.1).sum = k * (l.map fun p => p.2 * ρ p.1).sum := by
  by_cases hk : k = 0
  · simp [coeff_scale, hk]
  · simp only [coeff_scale, hk, if_false]
    induction l with
    | nil => simp
    | cons p rest ih =>
        simp only [List.map_cons, List.sum_cons]
        rw [ih]
        ring

theorem lin_eval (e : expr) (c : Int) (l : List (Nat × Int)) (h : lin e = some (c, l))
    (ρ : Nat → Int) : eval e ρ = some (lin_val c l ρ) := by
  induction e generalizing c l with
  | undef => cases h
  | var s =>
      simp [lin] at h
      obtain ⟨rfl, rfl⟩ := h
      simp [eval, lin_val]
  | const v =>
      simp [lin] at h
      obtain ⟨rfl, rfl⟩ := h
      simp [eval, lin_val]
  | add a b iha ihb =>
      cases ha : lin a with
      | none => simp [lin, ha] at h
      | some pa =>
          cases hb : lin b with
          | none => simp [lin, ha, hb] at h
          | some pb =>
              obtain ⟨ca, la⟩ := pa
              obtain ⟨cb, lb⟩ := pb
              simp [lin, ha, hb] at h
              obtain ⟨rfl, rfl⟩ := h
              simp [eval, iha ca la ha, ihb cb lb hb, lin_val, coeff_add_val]
              ring
  | sub a b iha ihb =>
      cases ha : lin a with
      | none => simp [lin, ha] at h
      | some pa =>
          cases hb : lin b with
          | none => simp [lin, ha, hb] at h
          | some pb =>
              obtain ⟨ca, la⟩ := pa
              obtain ⟨cb, lb⟩ := pb
              simp [lin, ha, hb] at h
              obtain ⟨rfl, rfl⟩ := h
              simp [eval, iha ca la ha, ihb cb lb hb, lin_val, coeff_add_val,
                coeff_scale_val]
              ring
  | mul a b iha ihb =>
      cases ha : lin a with
      | none => simp [lin, ha] at h
      | some pa =>
          cases hb : lin b with
          | none => simp [lin, ha, hb] at h
          | some pb =>
              obtain ⟨ca, la⟩ := pa
              obtain ⟨cb, lb⟩ := pb
              cases la with
              | nil =>
                  simp [lin, ha, hb] at h
                  obtain ⟨rfl, rfl⟩ := h
                  simp [eval, iha ca [] ha, ihb cb lb hb, lin_val, coeff_scale_val]
                  ring
              | cons pla la' =>
                  cases lb with
                  | nil =>
                      simp [lin, ha, hb] at h
                      obtain ⟨rfl, rfl⟩ := h
                      simp [eval, iha ca _ ha, ihb cb [] hb, lin_val, coeff_scale_val]
                      ring
                  | cons plb lb' => simp [lin, ha, hb] at h
  | div a b iha ihb => cases h
  | emin a b iha ihb => cases h
  | emax a b iha ihb => cases h
  | eq a b iha ihb => cases h
  | le a b iha ihb => cases h
  | lt a b iha ihb => cases h
  | land a b iha ihb => cases h
  | select c' t f ihc iht ihf => cases h
  | posInf => cases h
  | negInf => cases h
  | lbm b m d ihb ihd => cases h

theorem prove_le_sound {a b : expr} (h : prove_le a b = true) (ρ : Nat → Int)
    {va vb : Int} (ha : eval a ρ = some va) (hb : eval b ρ = some vb) : va ≤ vb := by
  unfold prove_le at h
  cases hl : lin (.sub b a) with
  | none => rw [hl] at h; cases h
  | some p =>
      obtain ⟨c, l⟩ := p
      rw [hl] at h
      cases l with
      | cons q l' => simp at h
      | nil =>
          simp at h
          have := lin_eval _ _ _ hl ρ
          rw [show eval (expr.sub b a) ρ = some (vb - va) by simp [eval, ha, hb]] at this
          simp [lin_val] at this
          omega

theorem simplify_min_eval (a b : expr) (ρ : Nat → Int) {va vb : Int}
    (ha : eval a ρ = some va) (hb : eval b ρ = some vb) :
    eval (simplify_min a b) ρ = some (Min.min va vb) := by
  unfold simplify_min
  cases hca : cfold a with
  | some x =>
      cases hcb : cfold b with
      | some y =>
          have hxa := cfold_eval a x hca ρ
          have hyb := cfold_eval b y hcb ρ
          rw [ha] at hxa; rw [hb] at hyb
          injection hxa with hxa; injection hyb with hyb
          subst hxa; subst hyb
          simp [eval]
      | none =>
          simp only []
          by_cases hab : a = b
          · subst hab
            rw [ha] at hb; injection hb with hb; subst hb
            simp [ha]
          · by_cases h1 : prove_le a b
            · simp [hab, h1, ha, min_eq_left (prove_le_sound h1 ρ ha hb)]
            · by_cases h2 : prove_le b a
              · simp [hab, h1, h2, hb, min_eq_right (prove_le_sound h2 ρ hb ha)]
              · simp [hab, h1, h2, eval, ha, hb]
  | none =>
      simp only []
      by_cases hab : a = b
      · subst hab
        rw [ha] at hb; injection hb with hb; subst hb
        simp [ha]
      · by_cases h1 : prove_le a b
        · simp [hab, h1, ha, min_eq_left (prove_le_sound h1 ρ ha hb)]
        · by_cases h2 : prove_le b a
          · simp [hab, h1, h2, hb, min_eq_right (prove_le_sound h2 ρ hb ha)]
          · simp [hab, h1, h2, eval, ha, hb]

theorem simplify_max_eval (a b : expr) (ρ : Nat → Int) {va vb : Int}
    (ha : eval a ρ = some va) (hb : eval b ρ = some vb) :
    eval (simplify_max a b) ρ = some (Max.max va vb) := by
  unfold simplify_max
  cases hca : cfold a with
  | some x =>
      cases hcb : cfold b with
      | some y =>
          have hxa := cfold_eval a x hca ρ
          have hyb := cfold_eval b y hcb ρ
          rw [ha] at hxa; rw [hb] at hyb
          injection hxa with hxa; injection hyb with hyb
          subst hxa; subst hyb
          simp [eval]
      | none =>
          simp only []
          by_cases hab : a = b
          · subst hab
            rw [ha] at hb; injection hb with hb; subst hb
            simp [ha]
          · by_cases h1 : prove_le a b
            · simp [hab, h1, hb, max_eq_right (prove_le_sound h1 ρ ha hb)]
            · by_cases h2 : prove_le b a
              · simp [hab, h1, h2, ha, max_eq_left (prove_le_sound h2 ρ hb ha)]
              · simp [hab, h1, h2, eval, ha, hb]
  | none =>
      simp only []
      by_cases hab : a = b
      · subst hab
        rw [ha] at hb; injection hb with hb; subst hb
        simp [ha]
      · by_cases h1 : prove_le a b
        · simp [hab, h1, hb, max_eq_right (prove_le_sound h1 ρ ha hb)]
        · by_cases h2 : prove_le b a
          · simp [hab, h1, h2, ha, max_eq_left (prove_le_sound h2 ρ hb ha)]
          · simp [hab, h1, h2, eval, ha, hb]

theorem inf_Icc_of_mono (F : Int → Int) (lo hi : Int) (hlo : lo ≤ hi)
    (hm : (∀ i j, i ≤ j → F i ≤ F j) ∨ (∀ i j, i ≤ j → F j ≤ F i)) :
    (Finset.Icc lo hi).inf' (Finset.nonempty_Icc.mpr hlo) F = Min.min (F lo) (F hi) := by
  rcases hm with h | h
  · rw [min_eq_left (h lo hi hlo)]
    refine le_antisymm (Finset.inf'_le F (by simp [Finset.mem_Icc, hlo])) ?_
    exact Finset.le_inf' _ _ fun b hb => h lo b (Finset.mem_Icc.mp hb).1
  · rw [min_eq_right (h lo hi hlo)]
    refine le_antisymm (Finset.inf'_le F (by simp [Finset.mem_Icc, hlo])) ?_
    exact Finset.le_inf' _ _ fun b hb => h b hi (Finset.mem_Icc.mp hb).2

theorem sup_Icc_of_mono (F : Int → Int) (lo hi : Int) (hlo : lo ≤ hi)
    (hm : (∀ i j, i ≤ j → F i ≤ F j) ∨ (∀ i j, i ≤ j → F j ≤ F i)) :
    (Finset.Icc lo hi).sup' (Finset.nonempty_Icc.mpr hlo) F = Max.max (F lo) (F hi) := by
  rcases hm with h | h
  · rw [max_eq_right (h lo hi hlo)]
    refine le_antisymm ?_ (Finset.le_sup' F (by simp [Finset.mem_Icc, hlo]))
    exact Finset.sup'_le _ _ fun b hb => h b hi (Finset.mem_Icc.mp hb).2
  · rw [max_eq_left (h lo hi hlo)]
    refine le_antisymm ?_ (Finset.le_sup' F (by simp [Finset.mem_Icc, hlo]))
    exact Finset.sup'_le _ _ fun b hb => h lo b (Finset.mem_Icc.mp hb).1

/-- C1: the claim states that `interval::operator&=` / `operator&` yields the
intersection `[max(a.min, b.min), min(a.max, b.max)]` and that nested crops
therefore never expand the region. The source (src/src/interval.h lines
55-60) instead computes `[min(a.min, b.min), max(a.max, b.max)]` — the
union — contradicting its own comment ("This is intersection"). At
`a = [0, 1]`, `b = [2, 3]` the operator evaluates to `[0, 3]`, the union,
which strictly contains both operands, not the claimed intersection
`[max(0,2), min(1,3)] = [2, 1]`. -/
theorem c1_intersection_computes_union :
    interval.op_and ⟨.const 0, .const 1⟩ ⟨.const 2, .const 3⟩ =
      interval.op_or ⟨.const 0, .const 1⟩ ⟨.const 2, .const 3⟩ ∧
    eval (interval.op_and ⟨.const 0, .const 1⟩ ⟨.const 2, .const 3⟩).min (fun _ => 0) =
      some 0 ∧
    eval (interval.op_and ⟨.const 0, .const 1⟩ ⟨.const 2, .const 3⟩).max (fun _ => 0) =
      some 3 ∧
    eval (interval.op_and ⟨.const 0, .const 1⟩ ⟨.const 2, .const 3⟩).min (fun _ => 0) ≠
      some (Max.max 0 2) ∧
    eval (interval.op_and ⟨.const 0, .const 1⟩ ⟨.const 2, .const 3⟩).max (fun _ => 0) ≠
      some (Min.min 1 3) := by
  refine ⟨rfl, rfl, rfl, ?_, ?_⟩ <;> decide

/-- C9: the claim states that distinct expression variants carry distinct
`node_type` tags, so `as<T>()` is non-null exactly when the node is a `T`,
and in particular a constant is never identified as a variable. The source
(src/src/expr.h line 168) declares `constant::static_type =
node_type::variable`, so a constant node is tagged `variable`:
`as<variable>()` on a constant node and `as<constant>()` on a variable node
both return non-null, even though the enum does provide a distinct
`node_type::constant` value. -/
theorem c9_constant_tagged_as_variable :
    as_variable (.constant_node 5) = true ∧
    as_constant (.variable_node 0) = true ∧
    constant_static_type = variable_static_type ∧
    node_type.constant_t ≠ node_type.variable_t := by
  refine ⟨rfl, rfl, rfl, ?_⟩; decide

/-- C10: the claim states that `buffer_aliaser::visit(const call_stmt*)`
completes without dereferencing an absent `alias_info` entry. The source
(src/src/optimizations.cc lines 134-139) runs `info->elementwise = false`
on the very `std::optional` it just found disengaged. On a call consuming
buffer 0 — a formal pipeline input with no enclosing `allocate`, so no
`alias_info` entry — the embedded visit reaches that undefined behavior,
modelled as `none`. -/
theorem c10_call_visit_dereferences_missing_info :
    alias_mutate {} (.call_stmt [0] [1]) = none := by
  decide

/-- C8 counterexample: the claim states every scoping node is rewritten to
`Block{ before; node{ new_body }; after }`. When no statement of the body
references the bound symbol, `scope_reducer::visit_stmt` takes the "op was
dead" branch (src/src/optimizations.cc lines 260-263) and drops the node:
a `let_stmt` binding symbol 0 over a call referencing only 1 and 2 reduces
to the bare call, with no node binding 0 left in the output. -/
theorem c8_counterexample_dead_node_dropped :
    reduce_scopes (.let_stmt 0 (.const 1) (.call_stmt [1] [2])) = .call_stmt [1] [2] ∧
    has_scoping_node 0 (.let_stmt 0 (.const 1) (.call_stmt [1] [2])) = true ∧
    has_scoping_node 0 (reduce_scopes (.let_stmt 0 (.const 1) (.call_stmt [1] [2]))) =
      false := by
  refine ⟨rfl, rfl, ?_⟩; decide

/-- C8 (amended): for every scoping node whose (already reduced) body has at
least one leaf statement referencing the bound symbol, `reduce_scopes`
rewrites it to `Block{ before; node{ new_body }; after }` where no leaf in
`before` or `after` references the symbol, `new_body` is a contiguous run of
the body's leaves containing every leaf that does reference it, and the
left-to-right leaf order is preserved; when no leaf references the symbol
the node is dropped and `Block{ before; after }` is emitted instead. -/
theorem c8_scope_reducer_split (n : snode) (body : stmt)
    (h : ∃ s ∈ leaves (reduce_scopes body), stmt_depends_on s n.sym = true) :
    ∃ before new_body after,
      reduce_scopes (n.make body) =
        mkBlock (before ++ [n.make (mkBlock new_body)] ++ after) ∧
      before ++ new_body ++ after = leaves (reduce_scopes body) ∧
      (∀ s ∈ before, stmt_depends_on s n.sym = false) ∧
      (∀ s ∈ after, stmt_depends_on s n.sym = false) ∧
      (∀ s ∈ leaves (reduce_scopes body), stmt_depends_on s n.sym = true →
        s ∈ new_body) := by
  have hvisit : reduce_scopes (n.make body) = scope_visit n (reduce_scopes body) := by
    cases n <;> rfl
  set dep := fun s => stmt_depends_on s n.sym with hdep
  set l := leaves (reduce_scopes body) with hl
  have hne : (split_body dep l).2.1 ≠ [] := split_body_new_body_ne h
  refine ⟨(split_body dep l).1, (split_body dep l).2.1, (split_body dep l).2.2, ?_, ?_, ?_, ?_, ?_⟩
  · rw [hvisit]
    unfold scope_visit
    cases hnb : (split_body dep l).2.1 with
    | nil => exact absurd hnb hne
    | cons hd tl => simp only [← hl, ← hdep, hnb]
  · simpa using split_body_append dep l
  · exact fun s hs => split_body_before hs
  · exact fun s hs => split_body_after hs
  · exact fun s hs hd => split_body_mem_new_body hs hd

/-- C8 witness: the amended theorem applied to a `let_stmt` binding symbol 0
over a block whose second leaf references 0. -/
theorem c8_scope_reducer_split_witness :
    (∃ s ∈ leaves (reduce_scopes (.block (.check (.const 1)) (.call_stmt [0] [1]))),
      stmt_depends_on s (snode.let_stmt 0 (.const 1)).sym = true) ∧
    (∃ before new_body after,
      reduce_scopes ((snode.let_stmt 0 (.const 1)).make
          (.block (.check (.const 1)) (.call_stmt [0] [1]))) =
        mkBlock (before ++ [(snode.let_stmt 0 (.const 1)).make (mkBlock new_body)] ++ after) ∧
      before ++ new_body ++ after =
        leaves (reduce_scopes (.block (.check (.const 1)) (.call_stmt [0] [1]))) ∧
      (∀ s ∈ before, stmt_depends_on s (snode.let_stmt 0 (.const 1)).sym = false) ∧
      (∀ s ∈ after, stmt_depends_on s (snode.let_stmt 0 (.const 1)).sym = false) ∧
      (∀ s ∈ leaves (reduce_scopes (.block (.check (.const 1)) (.call_stmt [0] [1]))),
        stmt_depends_on s (snode.let_stmt 0 (.const 1)).sym = true → s ∈ new_body)) :=
  ⟨⟨.call_stmt [0] [1], by decide⟩,
   c8_scope_reducer_split (snode.let_stmt 0 (.const 1))
     (.block (.check (.const 1)) (.call_stmt [0] [1]))
     ⟨.call_stmt [0] [1], by decide⟩⟩

/-- C5: when the buffer aliaser processes `Allocate(sym, ..., body)` and the
scan of the body left `sym`'s `buffer_info` elementwise with a non-empty
candidate set, the `Allocate` is replaced by `LetStmt(sym =
Variable(target), body)` where `target = *alias_candidates.begin()` — the
lowest symbol id of the `std::set` — and `target` is erased from every
other buffer's candidate set, so a target is aliased to at most once
(src/src/optimizations.cc lines 112-127). -/
theorem c5_aliaser_rewrites_allocate (st : alias_state) (sym : Nat) (es : Int)
    (dims : List dim_expr) (body : stmt) (st3 : alias_state) (body' : stmt)
    (info : buffer_info)
    (h1 : alias_mutate (alias_enter_alloc st sym dims) body = some (st3, body'))
    (h2 : st3.alias_info.get sym = some info)
    (h3 : info.elementwise = true)
    (h4 : info.alias_candidates.Nonempty) :
    ∃ target st',
      alias_mutate st (.allocate sym es dims body) =
        some (st', .let_stmt sym (.var target) body') ∧
      target ∈ info.alias_candidates ∧
      (∀ c ∈ info.alias_candidates, target ≤ c) ∧
      (∀ b inf2, b ≠ sym → st'.alias_info.get b = some inf2 →
        target ∉ inf2.alias_candidates) := by
  have hne : info.alias_candidates ≠ ∅ := Finset.nonempty_iff_ne_empty.mp h4
  obtain ⟨t, ht⟩ := Finset.min_of_nonempty h4
  refine ⟨t,
    { alias_info := (alias_erase_candidates t st3.alias_info).set sym (st.alias_info.get sym),
      buffer_bounds := st3.buffer_bounds.set sym (st.buffer_bounds.get sym),
      aliases := st3.aliases.set sym (some t) }, ?_, Finset.mem_of_min ht, ?_, ?_⟩
  · simp only [alias_mutate, h1, h2, h3, hne, ne_eq, not_false_iff, and_true, true_and,
      if_true, ht]
  · intro c hc
    have := Finset.min_le hc
    rw [ht] at this
    exact_mod_cast this
  · intro b inf2 hb hget
    simp only [symbol_map.get_set_ne _ sym b _ (fun hsb => hb hsb.symm)] at hget
    unfold alias_erase_candidates at hget
    rw [symbol_map.get_map_opt] at hget
    cases hg : st3.alias_info.get b with
    | none => rw [hg] at hget; cases hget
    | some inf0 =>
        rw [hg] at hget
        injection hget with hget
        rw [← hget]
        exact Finset.not_mem_erase t _

/-- C5 witness: an allocation of buffer 2 whose only consumer reads it
elementwise into output 3; the aliaser rewrites the `Allocate` into
`let 2 = buffer 3`. -/
theorem c5_aliaser_rewrites_allocate_witness :
    ∃ target st',
      alias_mutate {} (.allocate 2 4
          [⟨⟨.lbm (.var 3) .bmin (.const 0), .lbm (.var 3) .bmax (.const 0)⟩, .undef, .undef⟩]
          (.call_stmt [2] [3])) =
        some (st', .let_stmt 2 (.var target) (.call_stmt [2] [3])) ∧
      target ∈ ({3} : Finset Nat) ∧
      (∀ c ∈ ({3} : Finset Nat), target ≤ c) ∧
      (∀ b inf2, b ≠ 2 → st'.alias_info.get b = some inf2 →
        target ∉ inf2.alias_candidates) :=
  c5_aliaser_rewrites_allocate {} 2 4
    [⟨⟨.lbm (.var 3) .bmin (.const 0), .lbm (.var 3) .bmax (.const 0)⟩, .undef, .undef⟩]
    (.call_stmt [2] [3])
    { alias_info := [none, none, some { alias_candidates := {3}, elementwise := true }],
      buffer_bounds := [none, none,
        some [⟨.lbm (.var 3) .bmin (.const 0), .lbm (.var 3) .bmax (.const 0)⟩]],
      aliases := [] }
    (.call_stmt [2] [3])
    { alias_candidates := {3}, elementwise := true }
    (by decide) (by decide) rfl (by decide)

theorem subst_dim_nil (d : dim_expr) : subst_dim d [] = d := rfl

theorem recursive_substitute_nil (dims : List dim_expr) :
    recursive_substitute dims [] = dims := by
  have hmap : dims.map (subst_dim · []) = dims := by
    simp [subst_dim_nil]
  simp [recursive_substitute, recursive_substitute_go, hmap]

theorem infer_apply_subs_box_nil (bx : box) : infer_apply_subs_box bx [] = bx := by
  simp [infer_apply_subs_box]

theorem infer_apply_subs_map_nil (m : symbol_map box) :
    infer_apply_subs_map m [] = m := by
  unfold infer_apply_subs_map
  have : (Option.map (infer_apply_subs_box · [])) = id := by
    funext o
    cases o with
    | none => rfl
    | some bx => simp [infer_apply_subs_box_nil]
  rw [this, List.map_id]

/-- C6 counterexample: the claim states that an allocation whose inferred
bounds remain undefined (nothing consumed it) makes bounds inference fail
with `UnboundedAllocation` instead of producing an output statement. No
such error path exists anywhere in the source: on an allocate of buffer 0
whose body only writes it, the pass succeeds and emits the allocate with
its dims untouched. -/
theorem c6_counterexample_no_failure :
    infer_bounds
        (.allocate 0 4
          [⟨⟨.lbm (.var 0) .bmin (.const 0), .lbm (.var 0) .bmax (.const 0)⟩, .undef, .undef⟩]
          (.call_stmt [] [0])) [] =
      some (.block .undef
        (.allocate 0 4
          [⟨⟨.lbm (.var 0) .bmin (.const 0), .lbm (.var 0) .bmax (.const 0)⟩, .undef, .undef⟩]
          (.call_stmt [] [0]))) := by
  decide

/-- C6 (amended): if a buffer's inferred bounds are still the empty box at
its `Allocate` node (no consumer demanded any region), bounds inference does
not fail: the substitution list is empty, the dims are emitted unchanged,
and the pass produces an output statement; the source has no
`UnboundedAllocation` error path (infer_bounds.cc lines 228-284). -/
theorem c6_empty_bounds_allocate_succeeds (st : infer_state) (sym : Nat) (es : Int)
    (dims : List dim_expr) (body : stmt) (st1 : infer_state) (body' : stmt)
    (h1 : infer_mutate { st with infer := st.infer.set sym (some []) } body =
      some (st1, body'))
    (h2 : st1.infer.get sym = some []) :
    infer_mutate st (.allocate sym es dims body) =
      some ({ st1 with infer := st1.infer.set sym (st.infer.get sym) },
            .allocate sym es dims body') := by
  simp only [infer_mutate, h1, h2, alloc_substitutions, alloc_subst_go,
    recursive_substitute_nil, infer_apply_subs_map_nil]

/-- C6 witness: the amended theorem at a concrete allocation of buffer 0
whose body demands nothing of it. -/
theorem c6_empty_bounds_allocate_succeeds_witness :
    infer_mutate {} (.allocate 0 4
        [⟨⟨.lbm (.var 0) .bmin (.const 0), .lbm (.var 0) .bmax (.const 0)⟩, .undef, .undef⟩]
        (.call_stmt [] [0])) =
      some ({ ({ infer := [some []], crops := [] } : infer_state) with
                infer := ([some []] : symbol_map box).set 0
                  (symbol_map.get (symbol_map.empty box) 0) },
            .allocate 0 4
              [⟨⟨.lbm (.var 0) .bmin (.const 0), .lbm (.var 0) .bmax (.const 0)⟩, .undef, .undef⟩]
              (.call_stmt [] [0])) :=
  c6_empty_bounds_allocate_succeeds {} 0 4
    [⟨⟨.lbm (.var 0) .bmin (.const 0), .lbm (.var 0) .bmax (.const 0)⟩, .undef, .undef⟩]
    (.call_stmt [] [0]) { infer := [some []], crops := [] } (.call_stmt [] [0])
    (by decide) (by decide)

theorem input_checks_spec (m : symbol_map box) (l : List Nat) (cs : List stmt)
    (h : input_checks m l = some cs) :
    (∀ i ∈ l, (m.get i).isSome) ∧
    cs = l.flatMap fun i => spec_input_checks i ((m.get i).getD []) := by
  induction l generalizing cs with
  | nil =>
      simp [input_checks] at h
      subst h
      simp
  | cons i rest ih =>
      cases hg : m.get i with
      | none => simp [input_checks, hg] at h
      | some bounds =>
          cases hrest : input_checks m rest with
          | none => simp [input_checks, hg, hrest] at h
          | some more =>
              simp only [input_checks, hg, hrest] at h
              obtain ⟨hmem, hcs⟩ := ih more hrest
              refine ⟨?_, ?_⟩
              · intro j hj
                rcases List.mem_cons.mp hj with rfl | hj
                · simp [hg]
                · exact hmem j hj
              · injection h with h
                rw [← h, hcs]
                simp [spec_input_checks, hg]

/-- C4: whenever `infer_bounds` produces a statement, that statement is a
block whose first part is exactly the checks the claim lists — for every
formal input `in` and every dimension `d` of its inferred region,
`Check(buffer_min(in,d) ≤ min_d)`, `Check(buffer_max(in,d) ≥ max_d)` and
`Check(extent_d ≤ buffer_fold_factor(in,d))` — followed by the transformed
body (infer_bounds.cc lines 607-627). -/
theorem c4_input_checks_emitted (s : stmt) (inputs : List Nat) (out : stmt)
    (h : infer_bounds s inputs = some out) :
    ∃ st1 result,
      infer_mutate (infer_seed inputs) s = some (st1, result) ∧
      (∀ i ∈ inputs, (st1.infer.get i).isSome) ∧
      out = .block
        (mkBlock (inputs.flatMap fun i => spec_input_checks i ((st1.infer.get i).getD [])))
        result := by
  unfold infer_bounds at h
  cases e1 : infer_mutate (infer_seed inputs) s with
  | none => simp [e1] at h
  | some p =>
      obtain ⟨st1, result⟩ := p
      simp only [e1] at h
      cases e2 : input_checks st1.infer inputs with
      | none => simp [e2] at h
      | some checks =>
          simp only [e2] at h
          injection h with h
          obtain ⟨hmem, hcs⟩ := input_checks_spec st1.infer inputs checks e2
          exact ⟨st1, result, rfl, hmem, by rw [← h, hcs]⟩

/-- C4 witness: a pipeline whose single input buffer 0 is demanded on
`[1, 5]`; the output statement opens with the three checks for that
dimension, followed by the transformed body. -/
theorem c4_input_checks_emitted_witness :
    ∃ st1 result,
      infer_mutate (infer_seed [0])
          (.crop_buffer 0 [⟨.const 1, .const 5⟩] (.call_stmt [0] [1])) =
        some (st1, result) ∧
      (∀ i ∈ [0], (st1.infer.get i).isSome) ∧
      (.block
          (mkBlock
            [.check (.le (.lbm (.var 0) .bmin (.const 0)) (.const 1)),
             .check (.le (.const 5) (.lbm (.var 0) .bmax (.const 0))),
             .check (.le (.add (.sub (.const 5) (.const 1)) (.const 1))
               (.lbm (.var 0) .bfold (.const 0)))])
          (.crop_buffer 0 [⟨.const 1, .const 5⟩] (.call_stmt [0] [1])) : stmt) =
        .block
          (mkBlock ([0].flatMap fun i => spec_input_checks i ((st1.infer.get i).getD [])))
          result :=
  c4_input_checks_emitted (.crop_buffer 0 [⟨.const 1, .const 5⟩] (.call_stmt [0] [1])) [0]
    (.block
      (mkBlock
        [.check (.le (.lbm (.var 0) .bmin (.const 0)) (.const 1)),
         .check (.le (.const 5) (.lbm (.var 0) .bmax (.const 0))),
         .check (.le (.add (.sub (.const 5) (.const 1)) (.const 1))
           (.lbm (.var 0) .bfold (.const 0)))])
      (.crop_buffer 0 [⟨.const 1, .const 5⟩] (.call_stmt [0] [1])))
    (by decide)

/-- C2 counterexample: the claim states the inferred region after leaving a
loop equals the union over all iterations. The pass only evaluates each
bound at the loop endpoints (infer_bounds.cc lines 344-351). For buffer 0
with demanded min `max(sym, 6 - sym)` inside a loop over `sym ∈ [0, 6]`,
both endpoints evaluate to 6, so the pass infers min 6 — but iteration
`sym = 3` demands min 3, so the union's lower end is 3, not 6: the inferred
region is not the union (and does not even cover iteration 3). -/
theorem c2_counterexample_endpoints_not_union :
    infer_mutate
        { infer := [some [⟨.emax (.var 1) (.sub (.const 6) (.var 1)), .const 100⟩]],
          crops := [] }
        (.loop 1 .serial ⟨.const 0, .const 6⟩ (.const 1) (.call_stmt [] [])) =
      some ({ infer := [some [⟨.const 6, .const 100⟩]], crops := [] },
        .crop_buffer 0 [⟨.const 6, .const 100⟩]
          (.loop 1 .serial ⟨.const 0, .const 6⟩ (.const 1) (.call_stmt [] []))) ∧
    eval (substitute (.emax (.var 1) (.sub (.const 6) (.var 1))) 1 (.const 3))
      (fun _ => 0) = some 3 ∧
    ¬ ((6 : Int) ≤ 3) := by
  refine ⟨by decide, by decide, by decide⟩

/-- C2 (amended): when the pass leaves a serial loop over `sym ∈ [lo, hi]`,
each inferred bound that mentions `sym` is replaced by the simplified
`min` (resp. `max`) of the bound at `sym = lo` and at `sym = hi`, and the
loop is wrapped in a fresh `CropBuffer` carrying the inferred region; when
every such bound is monotone in `sym`, this endpoint rule computes exactly
the union over all iterations of the loop (the claim's union property holds
under that monotonicity proviso, which the source's own comment flags as
"janky/possibly not right"). -/
theorem c2_loop_exit_union_of_monotone (e M : expr) (sym : Nat) (lo hi : Int)
    (ρ : Nat → Int) (F G : Int → Int)
    (hdm : depends_on e sym = true) (hdM : depends_on M sym = true)
    (hF : ∀ i : Int, eval e (Function.update ρ sym i) = some (F i))
    (hG : ∀ i : Int, eval M (Function.update ρ sym i) = some (G i))
    (hmF : (∀ i j, i ≤ j → F i ≤ F j) ∨ (∀ i j, i ≤ j → F j ≤ F i))
    (hmG : (∀ i j, i ≤ j → G i ≤ G j) ∨ (∀ i j, i ≤ j → G j ≤ G i))
    (hlo : lo ≤ hi) :
    infer_mutate { infer := [some [⟨e, M⟩]], crops := [] }
        (.loop sym .serial ⟨.const lo, .const hi⟩ (.const 1) (.call_stmt [] [])) =
      some
        ({ infer := [some [⟨simplify_min (substitute e sym (.const lo))
                              (substitute e sym (.const hi)),
                            simplify_max (substitute M sym (.const lo))
                              (substitute M sym (.const hi))⟩]],
           crops := [] },
         .crop_buffer 0
           [⟨simplify_min (substitute e sym (.const lo)) (substitute e sym (.const hi)),
             simplify_max (substitute M sym (.const lo)) (substitute M sym (.const hi))⟩]
           (.loop sym .serial ⟨.const lo, .const hi⟩ (.const 1) (.call_stmt [] []))) ∧
    eval (simplify_min (substitute e sym (.const lo)) (substitute e sym (.const hi))) ρ =
      some ((Finset.Icc lo hi).inf' (Finset.nonempty_Icc.mpr hlo) F) ∧
    eval (simplify_max (substitute M sym (.const lo)) (substitute M sym (.const hi))) ρ =
      some ((Finset.Icc lo hi).sup' (Finset.nonempty_Icc.mpr hlo) G) := by
  refine ⟨?_, ?_, ?_⟩
  · simp [infer_mutate, infer_exit_loop, infer_union_interval, hdm, hdM,
      symbol_map.entries, List.range_succ]
  · have hA : eval (substitute e sym (.const lo)) ρ = some (F lo) := by
      rw [eval_substitute_const]; exact hF lo
    have hB : eval (substitute e sym (.const hi)) ρ = some (F hi) := by
      rw [eval_substitute_const]; exact hF hi
    rw [simplify_min_eval _ _ ρ hA hB, inf_Icc_of_mono F lo hi hlo hmF]
  · have hA : eval (substitute M sym (.const lo)) ρ = some (G lo) := by
      rw [eval_substitute_const]; exact hG lo
    have hB : eval (substitute M sym (.const hi)) ρ = some (G hi) := by
      rw [eval_substitute_const]; exact hG hi
    rw [simplify_max_eval _ _ ρ hA hB, sup_Icc_of_mono G lo hi hlo hmG]

/-- C2 witness: the amended theorem on the bounds `[sym + 1, sym + 10]`
inside a loop over `sym ∈ [0, 6]`: the inferred region is `[1, 16]`, the
union over the seven iterations. -/
theorem c2_loop_exit_union_of_monotone_witness :
    infer_mutate
        ({ infer := [some [⟨.add (.var 1) (.const 1), .add (.var 1) (.const 10)⟩]],
           crops := [] } : infer_state)
        (.loop 1 .serial ⟨.const 0, .const 6⟩ (.const 1) (.call_stmt [] [])) =
      some
        ({ infer := [some [⟨simplify_min (substitute (.add (.var 1) (.const 1)) 1 (.const 0))
                              (substitute (.add (.var 1) (.const 1)) 1 (.const 6)),
                            simplify_max (substitute (.add (.var 1) (.const 10)) 1 (.const 0))
                              (substitute (.add (.var 1) (.const 10)) 1 (.const 6))⟩]],
           crops := [] },
         .crop_buffer 0
           [⟨simplify_min (substitute (.add (.var 1) (.const 1)) 1 (.const 0))
               (substitute (.add (.var 1) (.const 1)) 1 (.const 6)),
             simplify_max (substitute (.add (.var 1) (.const 10)) 1 (.const 0))
               (substitute (.add (.var 1) (.const 10)) 1 (.const 6))⟩]
           (.loop 1 .serial ⟨.const 0, .const 6⟩ (.const 1) (.call_stmt [] []))) ∧
    eval (simplify_min (substitute (.add (.var 1) (.const 1)) 1 (.const 0))
        (substitute (.add (.var 1) (.const 1)) 1 (.const 6))) (fun _ => 0) =
      some ((Finset.Icc (0 : Int) 6).inf' (Finset.nonempty_Icc.mpr (by norm_num))
        (fun i => i + 1)) ∧
    eval (simplify_max (substitute (.add (.var 1) (.const 10)) 1 (.const 0))
        (substitute (.add (.var 1) (.const 10)) 1 (.const 6))) (fun _ => 0) =
      some ((Finset.Icc (0 : Int) 6).sup' (Finset.nonempty_Icc.mpr (by norm_num))
        (fun i => i + 10)) :=
  c2_loop_exit_union_of_monotone (.add (.var 1) (.const 1)) (.add (.var 1) (.const 10))
    1 0 6 (fun _ => 0) (fun i => i + 1) (fun i => i + 10)
    (by decide) (by decide)
    (fun i => by simp [eval, Function.update])
    (fun i => by simp [eval, Function.update])
    (Or.inl fun i j h => by simpa using h)
    (Or.inl fun i j h => by simpa using h)
    (by norm_num)

/-- C7: slide-and-fold performs no sliding and no folding with respect to a
parallel loop: the loop node is rebuilt with the same symbol, mode, bounds
and step, the loop is not pushed onto the stack of candidate loops (the
body is processed under the unchanged state, so inner serial loops are
still handled and no fold factor can be recorded against this loop's
variable), and the body's mutation result is threaded through unchanged
(infer_bounds.cc lines 564-569). -/
theorem c7_parallel_loop_not_slid (st : slide_state) (sym : Nat) (bds : interval)
    (step : expr) (body : stmt) :
    slide_mutate st (.loop sym .parallel bds step body) =
      (slide_mutate st body).map fun p => (p.1, .loop sym .parallel bds step p.2) := by
  cases h : slide_mutate st body with
  | none => simp [slide_mutate, h]
  | some p => simp [slide_mutate, h]

/-- C3: for a call producing `out` under an enclosing serial loop, in a
dimension whose bounds `cur` depend on the loop variable, when
`prev = cur[sym ↦ sym − step]` provably satisfies `prev.min ≤ cur.min ∧
prev.max ≤ cur.max` (with positive infinity substituted for the loop max
before proving) and the overlap is not provably empty, slide-and-fold
rewrites the dimension's required min to `prev.max + 1`, records
`fold_factor[out,d] = simplify(align_up(max of the extent, step))` (when
that bound does not depend on the loop variable), and moves the loop min to
the largest `x` solving `new_min_at_x ≤ old_min_at_loop_min`; when no
finite solution exists the loop min is kept and the dimension's min becomes
`select(sym == orig_min, old_min, new_min)` (infer_bounds.cc lines
425-523). The intermediates are named by defining equations mirroring the
source's locals. -/
theorem c3_slide_monotonic_increasing (st : slide_state) (ins : List Nat) (out : Nat)
    (cur : interval) (li : loop_info)
    (prev_min prev_max new_min fold0 fold nlm : expr)
    (hloops : st.loops = [li])
    (hbb : st.buffer_bounds.get out = some [cur])
    (hpm : prev_min = substitute cur.min li.sym (.sub (.var li.sym) li.step))
    (hpM : prev_max = substitute cur.max li.sym (.sub (.var li.sym) li.step))
    (hnm : new_min = simplify (.add prev_max (.const 1)))
    (hf0 : fold0 = simplify (bounds_of_max (substitute_expr (interval.extent cur) li.bounds.max .posInf)))
    (hf : fold = simplify (align_up fold0 li.step))
    (hnlm : nlm = where_true_max (substitute_expr
        (.le (substitute new_min li.sym (.var st.x))
             (substitute cur.min li.sym li.bounds.min)) li.bounds.max .posInf) st.x)
    (hdep : (depends_on cur.min li.sym || depends_on cur.max li.sym) = true)
    (hov : prove_true (substitute_expr
        (interval.empty_test (interval.op_and ⟨prev_min, prev_max⟩ cur))
        li.bounds.max .posInf) = false)
    (hinc : prove_true (substitute_expr
        (.land (.le prev_min cur.min) (.le prev_max cur.max))
        li.bounds.max .posInf) = true)
    (hfold : depends_on fold0 li.sym = false) :
    ∃ st',
      slide_mutate st (.call_stmt ins [out]) = some (st', .call_stmt ins [out]) ∧
      st'.fold_factors.get out = some (0, fold) ∧
      (if nlm = .negInf then
        st'.buffer_bounds.get out =
          some [interval.mk (.select (.eq (.var li.sym) li.orig_min) cur.min new_min) cur.max] ∧
        st'.loops = [li]
      else
        st'.buffer_bounds.get out = some [interval.mk new_min cur.max] ∧
        st'.loops = [loop_info.mk li.sym li.orig_min (interval.mk nlm li.bounds.max) li.step]) := by
  subst hnlm hf hf0 hnm hpM hpm
  by_cases hn : where_true_max (substitute_expr
      (.le (substitute (simplify (.add (substitute cur.max li.sym (.sub (.var li.sym) li.step)) (.const 1))) li.sym (.var st.x))
           (substitute cur.min li.sym li.bounds.min)) li.bounds.max .posInf) st.x = .negInf
  · have hstep : slide_dim_step st.x li cur =
        .brk (interval.mk (.select (.eq (.var li.sym) li.orig_min) cur.min (simplify (.add (substitute cur.max li.sym (.sub (.var li.sym) li.step)) (.const 1)))) cur.max)
          (some (simplify (align_up (simplify (bounds_of_max
            (substitute_expr (interval.extent cur) li.bounds.max .posInf))) li.step))) none := by
      simp only [slide_dim_step, hdep, Bool.not_true, Bool.false_eq_true, if_false, hov,
        hinc, if_true, hfold, hn]
      simp
    have hdims : slide_dims_aux st.x li 0 (st.fold_factors.get out) [cur] =
        ([interval.mk (.select (.eq (.var li.sym) li.orig_min) cur.min (simplify (.add (substitute cur.max li.sym (.sub (.var li.sym) li.step)) (.const 1)))) cur.max],
         some (0, simplify (align_up (simplify (bounds_of_max
            (substitute_expr (interval.extent cur) li.bounds.max .posInf))) li.step)), none) := by
      simp [slide_dims_aux, hstep]
    refine ⟨slide_state.mk (st.buffer_bounds.set out (some [interval.mk (expr.select (.eq (.var li.sym) li.orig_min) cur.min (simplify (.add (substitute cur.max li.sym (.sub (.var li.sym) li.step)) (.const 1)))) cur.max])) (st.fold_factors.set out (some (0, (simplify (align_up (simplify (bounds_of_max (substitute_expr (interval.extent cur) li.bounds.max .posInf))) li.step))))) [li] st.x st.ctx, ?_, ?_, ?_⟩
    · simp only [slide_mutate, slide_visit_call, List.foldl_cons, List.foldl_nil,
        slide_visit_output, hbb, hloops, slide_loops_aux, hdims]
    · simp [symbol_map.get_set_self]
    · rw [if_pos hn]
      exact ⟨by simp [symbol_map.get_set_self], rfl⟩
  · have hstep : slide_dim_step st.x li cur =
        .brk (interval.mk (simplify (.add (substitute cur.max li.sym (.sub (.var li.sym) li.step)) (.const 1))) cur.max)
          (some (simplify (align_up (simplify (bounds_of_max
            (substitute_expr (interval.extent cur) li.bounds.max .posInf))) li.step)))
          (some (where_true_max (substitute_expr
            (.le (substitute (simplify (.add (substitute cur.max li.sym (.sub (.var li.sym) li.step)) (.const 1))) li.sym (.var st.x))
                 (substitute cur.min li.sym li.bounds.min)) li.bounds.max .posInf) st.x)) := by
      simp only [slide_dim_step, hdep, Bool.not_true, Bool.false_eq_true, if_false, hov,
        hinc, if_true, hfold]
      simp [hn]
    have hdims : slide_dims_aux st.x li 0 (st.fold_factors.get out) [cur] =
        ([interval.mk (simplify (.add (substitute cur.max li.sym (.sub (.var li.sym) li.step)) (.const 1))) cur.max],
         some (0, simplify (align_up (simplify (bounds_of_max
            (substitute_expr (interval.extent cur) li.bounds.max .posInf))) li.step)),
         some (where_true_max (substitute_expr
            (.le (substitute (simplify (.add (substitute cur.max li.sym (.sub (.var li.sym) li.step)) (.const 1))) li.sym (.var st.x))
                 (substitute cur.min li.sym li.bounds.min)) li.bounds.max .posInf) st.x)) := by
      simp [slide_dims_aux, hstep]
    refine ⟨slide_state.mk (st.buffer_bounds.set out (some [interval.mk (simplify (.add (substitute cur.max li.sym (.sub (.var li.sym) li.step)) (.const 1))) cur.max])) (st.fold_factors.set out (some (0, (simplify (align_up (simplify (bounds_of_max (substitute_expr (interval.extent cur) li.bounds.max .posInf))) li.step))))) [loop_info.mk li.sym li.orig_min (interval.mk (where_true_max (substitute_expr (.le (substitute (simplify (.add (substitute cur.max li.sym (.sub (.var li.sym) li.step)) (.const 1))) li.sym (.var st.x)) (substitute cur.min li.sym li.bounds.min)) li.bounds.max .posInf) st.x) li.bounds.max) li.step] st.x st.ctx, ?_, ?_, ?_⟩
    · simp only [slide_mutate, slide_visit_call, List.foldl_cons, List.foldl_nil,
        slide_visit_output, hbb, hloops, slide_loops_aux, hdims]
    · simp [symbol_map.get_set_self]
    · rw [if_neg hn]
      exact ⟨by simp [symbol_map.get_set_self], rfl⟩

/-- C3 witness: the stencil bounds `[sym - 1, sym + 1]` under a serial loop
over symbol 1: the monotone-increasing branch fires, the fold factor 3 is
recorded, and the loop min moves to the finite solution. -/
theorem c3_slide_monotonic_increasing_witness :
    ∃ st',
      slide_mutate (slide_state.mk [none, none, some [(interval.mk (.sub (.var 1) (.const 1)) (.add (.var 1) (.const 1)))]] [] [(loop_info.mk 1 (.var 7) (interval.mk (.var 7) (.lbm (.var 5) .bmax (.const 0))) (.const 1))] 9 10) (.call_stmt [0] [2]) = some (st', .call_stmt [0] [2]) ∧
      st'.fold_factors.get 2 = some (0, (simplify (align_up (simplify (bounds_of_max (substitute_expr (interval.extent (interval.mk (.sub (.var 1) (.const 1)) (.add (.var 1) (.const 1)))) (.lbm (.var 5) .bmax (.const 0)) .posInf))) (.const 1)))) ∧
      (if (where_true_max (substitute_expr (.le (substitute (simplify (.add (substitute (.add (.var 1) (.const 1)) 1 (.sub (.var 1) (.const 1))) (.const 1))) 1 (.var 9)) (substitute (.sub (.var 1) (.const 1)) 1 (.var 7))) (.lbm (.var 5) .bmax (.const 0)) .posInf) 9) = .negInf then
        st'.buffer_bounds.get 2 =
          some [interval.mk (.select (.eq (.var 1) (.var 7)) (.sub (.var 1) (.const 1)) (simplify (.add (substitute (.add (.var 1) (.const 1)) 1 (.sub (.var 1) (.const 1))) (.const 1)))) (.add (.var 1) (.const 1))] ∧
        st'.loops = [(loop_info.mk 1 (.var 7) (interval.mk (.var 7) (.lbm (.var 5) .bmax (.const 0))) (.const 1))]
      else
        st'.buffer_bounds.get 2 = some [interval.mk (simplify (.add (substitute (.add (.var 1) (.const 1)) 1 (.sub (.var 1) (.const 1))) (.const 1))) (.add (.var 1) (.const 1))] ∧
        st'.loops = [loop_info.mk 1 (.var 7) (interval.mk (where_true_max (substitute_expr (.le (substitute (simplify (.add (substitute (.add (.var 1) (.const 1)) 1 (.sub (.var 1) (.const 1))) (.const 1))) 1 (.var 9)) (substitute (.sub (.var 1) (.const 1)) 1 (.var 7))) (.lbm (.var 5) .bmax (.const 0)) .posInf) 9) (.lbm (.var 5) .bmax (.const 0))) (.const 1)]) :=
  c3_slide_monotonic_increasing (slide_state.mk [none, none, some [(interval.mk (.sub (.var 1) (.const 1)) (.add (.var 1) (.const 1)))]] [] [(loop_info.mk 1 (.var 7) (interval.mk (.var 7) (.lbm (.var 5) .bmax (.const 0))) (.const 1))] 9 10) [0] 2 (interval.mk (.sub (.var 1) (.const 1)) (.add (.var 1) (.const 1))) (loop_info.mk 1 (.var 7) (interval.mk (.var 7) (.lbm (.var 5) .bmax (.const 0))) (.const 1))
    (substitute (.sub (.var 1) (.const 1)) 1 (.sub (.var 1) (.const 1))) (substitute (.add (.var 1) (.const 1)) 1 (.sub (.var 1) (.const 1))) (simplify (.add (substitute (.add (.var 1) (.const 1)) 1 (.sub (.var 1) (.const 1))) (.const 1))) (simplify (bounds_of_max (substitute_expr (interval.extent (interval.mk (.sub (.var 1) (.const 1)) (.add (.var 1) (.const 1)))) (.lbm (.var 5) .bmax (.const 0)) .posInf))) (simplify (align_up (simplify (bounds_of_max (substitute_expr (interval.extent (interval.mk (.sub (.var 1) (.const 1)) (.add (.var 1) (.const 1)))) (.lbm (.var 5) .bmax (.const 0)) .posInf))) (.const 1))) (where_true_max (substitute_expr (.le (substitute (simplify (.add (substitute (.add (.var 1) (.const 1)) 1 (.sub (.var 1) (.const 1))) (.const 1))) 1 (.var 9)) (substitute (.sub (.var 1) (.const 1)) 1 (.var 7))) (.lbm (.var 5) .bmax (.const 0)) .posInf) 9)
    rfl rfl rfl rfl rfl rfl rfl rfl
    (by decide) (by decide) (by decide) (by decide)

end slinky

